import Mathlib

/-!
# System-Monitor: the metric samplers and the poller of `system_monitor.c`

A shallow embedding of the four samplers (`get_cpu_usage`, `get_memory_info`,
`get_gpu_info`, `get_cpu_temperature`) and of the timer wiring in `main`,
`update_system_info` and `on_window_destroy`.

Conventions of the embedding

* `unsigned long long` is a `Nat` reduced modulo `2 ^ 64` after every operation;
  `long` and `int` are `Int`s inside their 64-bit and 32-bit ranges.
* `double` is `Dbl`: the rational value of a finite IEEE 754 binary64 number,
  an infinity or NaN. Every operation rounds its exact result to nearest, ties
  to even (`Dbl.round`).
* C strings and file contents are `List Char`, one `Char` for each C `char`.
* A file that `fopen` or `popen` could open is `some content`, one it could not
  is `none`.
* An out-parameter, or a local the code reads without having set it, is an
  argument of the embedded function holding the value found there.
-/

namespace SystemMonitor

/-! ## The `double` model -/

/-- The integer nearest to `s`, the even one of the two when `s` lies half-way. -/
def round_half_even (s : ℚ) : Int :=
  if s - ⌊s⌋ < 1 / 2 then ⌊s⌋
  else if 1 / 2 < s - ⌊s⌋ then ⌊s⌋ + 1
  else if ⌊s⌋ % 2 = 0 then ⌊s⌋ else ⌊s⌋ + 1

/-- The binary exponent of the last place of a `double` of magnitude `a`: 52
below the exponent of `a`, and -1074 at least (subnormal range). -/
def ulp_exponent (a : ℚ) : Int :=
  max (Int.log 2 a - 52) (-1074)

/-- The multiple of the unit in the last place nearest to `q`, ties to even:
IEEE 754 round-to-nearest for binary64, before the overflow check. -/
def round_nearest (q : ℚ) : ℚ :=
  let m : ℚ := (round_half_even (|q| / 2 ^ ulp_exponent |q|) : ℚ) * 2 ^ ulp_exponent |q|
  if q < 0 then -m else m

/-- The value of a C `double`: a finite number, an infinity or NaN. The sign of
a zero is not kept. -/
inductive Dbl where
  | fin (q : ℚ)
  | posInf
  | negInf
  | nan
  deriving DecidableEq

namespace Dbl

/-- The infinity with the sign of `pos`. -/
def inf (pos : Bool) : Dbl := if pos then posInf else negInf

/-- The `double` an operation returns for the exact result `q`: `q` rounded to
nearest, or an infinity when the rounded magnitude reaches `2 ^ 1024`. -/
def round (q : ℚ) : Dbl :=
  if 2 ^ 1024 ≤ |round_nearest q| then inf (decide (0 < q)) else fin (round_nearest q)

/-- Conversion `(double)n` of an integer. -/
def ofInt (n : Int) : Dbl := round (n : ℚ)

/-- Product `x * y` of two `double`s. -/
def mul : Dbl → Dbl → Dbl
  | fin a, fin b => round (a * b)
  | nan, _ => nan
  | _, nan => nan
  | fin a, posInf => if a = 0 then nan else inf (decide (0 < a))
  | fin a, negInf => if a = 0 then nan else inf (decide (a < 0))
  | posInf, fin b => if b = 0 then nan else inf (decide (0 < b))
  | negInf, fin b => if b = 0 then nan else inf (decide (b < 0))
  | posInf, posInf => posInf
  | negInf, negInf => posInf
  | posInf, negInf => negInf
  | negInf, posInf => negInf

/-- Difference `x - y` of two `double`s. -/
def sub : Dbl → Dbl → Dbl
  | fin a, fin b => round (a - b)
  | nan, _ => nan
  | _, nan => nan
  | fin _, posInf => negInf
  | fin _, negInf => posInf
  | posInf, fin _ => posInf
  | negInf, fin _ => negInf
  | posInf, negInf => posInf
  | negInf, posInf => negInf
  | posInf, posInf => nan
  | negInf, negInf => nan

/-- Quotient `x / y` of two `double`s. A zero divisor here is always the
conversion of an integer zero, hence `+0.0`: a non-zero dividend gives the
infinity of its own sign, a zero dividend gives NaN. -/
def div : Dbl → Dbl → Dbl
  | fin a, fin b =>
    if b = 0 then (if a = 0 then nan else inf (decide (0 < a))) else round (a / b)
  | nan, _ => nan
  | _, nan => nan
  | fin _, posInf => fin 0
  | fin _, negInf => fin 0
  | posInf, fin b => inf (decide (0 ≤ b))
  | negInf, fin b => inf (decide (b < 0))
  | posInf, posInf => nan
  | posInf, negInf => nan
  | negInf, posInf => nan
  | negInf, negInf => nan

end Dbl

/-! ## CPU sampler: `get_cpu_usage` -/

/-- Modulus of `unsigned long long` arithmetic. -/
def ULLONG_MOD : Nat := 2 ^ 64

/-- The seven variables `user, nice, system, idle, iowait, irq, softirq` as the
`fscanf` call of `get_cpu_usage` leaves them. -/
structure CounterSample where
  user : Nat
  nice : Nat
  system : Nat
  idle : Nat
  iowait : Nat
  irq : Nat
  softirq : Nat
  deriving DecidableEq, Repr

/-- The mathematical sum of the seven fields. -/
def CounterSample.sum (s : CounterSample) : Nat :=
  s.user + s.nice + s.system + s.idle + s.iowait + s.irq + s.softirq

/-- The statics `prev_idle` and `prev_total` of `get_cpu_usage`. -/
structure CpuState where
  prev_idle : Nat
  prev_total : Nat
  deriving DecidableEq, Repr

/-- The statics at process start: `prev_idle = 0, prev_total = 0`. -/
def CpuState.initial : CpuState := { prev_idle := 0, prev_total := 0 }

/-- What one call of `get_cpu_usage` produces: the returned `double`, the
statics after the call, and the divisor of every division the call evaluated. -/
structure CpuResult where
  ret : Dbl
  state : CpuState
  divisors : List Nat
  deriving DecidableEq

/-- Line 31: `total = user + nice + system + idle + iowait + irq + softirq` in
`unsigned long long`. -/
def cpu_total (s : CounterSample) : Nat :=
  (s.user + s.nice + s.system + s.idle + s.iowait + s.irq + s.softirq) % ULLONG_MOD

/-- Unsigned 64-bit subtraction `a - b`. -/
def usub64 (a b : Nat) : Nat := (a + ULLONG_MOD - b % ULLONG_MOD) % ULLONG_MOD

/-- Line 37: `100.0 * (1.0 - ((double)diff_idle / diff_total))`. -/
def cpu_percent (diff_idle diff_total : Nat) : Dbl :=
  Dbl.mul (Dbl.fin 100)
    (Dbl.sub (Dbl.fin 1) (Dbl.div (Dbl.ofInt diff_idle) (Dbl.ofInt diff_total)))

/-- `get_cpu_usage` (lines 21-44). `fp` is the outcome of opening `/proc/stat`:
`none` when `fopen` failed, otherwise the sample the `fscanf` call read. -/
def get_cpu_usage (st : CpuState) (fp : Option CounterSample) : CpuResult :=
  match fp with
  | none => { ret := Dbl.fin 0, state := st, divisors := [] }
  | some s =>
    let total := cpu_total s
    let diff_idle := usub64 s.idle st.prev_idle
    let diff_total := usub64 total st.prev_total
    let cpu_percent : Dbl × List Nat :=
      if diff_total > 0 then (cpu_percent diff_idle diff_total, [diff_total])
      else (Dbl.fin 0, [])
    { ret := cpu_percent.1
      state := { prev_idle := s.idle, prev_total := total }
      divisors := cpu_percent.2 }

/-- Successive calls of `get_cpu_usage`, one for each sample read, starting
from the statics `st`: the list of returned values. -/
def cpu_run : CpuState → List CounterSample → List Dbl
  | _, [] => []
  | st, s :: rest =>
    let r := get_cpu_usage st (some s)
    r.ret :: cpu_run r.state rest

/-! ## Text input: `fgets` and the `scanf` directives -/

/-- The terminator of a C string. -/
def NUL : Char := Char.ofNat 0

/-- C `isspace` in the "C" locale: blank, `\t`, `\n`, `\v`, `\f`, `\r`. -/
def isspace (c : Char) : Bool :=
  c.toNat = 32 || (9 ≤ c.toNat && c.toNat ≤ 13)

/-- C `isdigit`. -/
def isdigit (c : Char) : Bool :=
  48 ≤ c.toNat && c.toNat ≤ 57

/-- Successive results of `fgets(line, size, fp)` until it returns `NULL`: each
call takes characters up to and including a newline, at most `size - 1` of
them. `acc` holds the current line, last character first. -/
def fgets_from (size : Nat) : List Char → List Char → List (List Char)
  | [], acc => if acc.isEmpty then [] else [acc.reverse]
  | c :: cs, acc =>
    if c.toNat = 10 || size ≤ acc.length + 2 then (c :: acc).reverse :: fgets_from size cs []
    else fgets_from size cs (c :: acc)

/-- The lines `fgets(line, sizeof(line), fp)` yields with `char line[256]`. -/
def fgets_lines (content : List Char) : List (List Char) :=
  fgets_from 256 content []

/-- The C string held by a buffer: the characters before the first NUL. -/
def c_str (buf : List Char) : List Char :=
  buf.takeWhile (fun c => c != NUL)

/-- Ordinary characters of a format: each must equal the next input character. -/
def match_literal : List Char → List Char → Option (List Char)
  | [], s => some s
  | _ :: _, [] => none
  | k :: ks, c :: cs => if k = c then match_literal ks cs else none

/-- A white-space directive of a format: skips any white space, possibly none. -/
def skip_ws (s : List Char) : List Char :=
  s.dropWhile isspace

/-- The value of a digit. -/
def digit_val (c : Char) : Nat := c.toNat - 48

/-- The value of a string of decimal digits. -/
def decimal_value (ds : List Char) : Nat :=
  ds.foldl (fun acc c => 10 * acc + digit_val c) 0

/-- The text of a decimal conversion (`%d`, `%ld`): white space is skipped, then
an optional sign and the longest run of digits are taken. `none` is a matching
failure (no digit); otherwise the mathematical value and the unread input. -/
def scan_decimal (s : List Char) : Option (Int × List Char) :=
  let s := skip_ws s
  let signed : Bool × List Char :=
    match s with
    | [] => (false, s)
    | c :: t => if c.toNat = 45 then (true, t) else if c.toNat = 43 then (false, t) else (false, s)
  let ds := signed.2.takeWhile isdigit
  if ds.isEmpty then none
  else
    some (if signed.1 then -((decimal_value ds : Nat) : Int) else ((decimal_value ds : Nat) : Int),
      signed.2.dropWhile isdigit)

/-- Least value of `long`. -/
def LONG_MIN : Int := -(2 ^ 63)

/-- Greatest value of `long`. -/
def LONG_MAX : Int := 2 ^ 63 - 1

/-- Least value of `int`. -/
def INT_MIN : Int := -(2 ^ 31)

/-- Greatest value of `int`. -/
def INT_MAX : Int := 2 ^ 31 - 1

/-- The `long` a `%ld` conversion stores for the value read. A value outside
the range of `long` is clamped, as the C library's `strtol` does (ISO C leaves
that case undefined). -/
def store_long (v : Int) : Int :=
  max LONG_MIN (min LONG_MAX v)

/-- Reduction of an integer to `int` by two's-complement wrap-around. -/
def wrap_int (v : Int) : Int :=
  (v + 2 ^ 31) % 2 ^ 32 - 2 ^ 31

/-- Reduction of an integer to `long` by two's-complement wrap-around. -/
def wrap_long (v : Int) : Int :=
  (v + 2 ^ 63) % 2 ^ 64 - 2 ^ 63

/-- The `int` a `%d` conversion stores for the value read: the C library
converts as for `long` and keeps the low 32 bits (ISO C leaves a value outside
the range of `int` undefined). -/
def store_int (v : Int) : Int :=
  wrap_int (store_long v)

/-- The call `sscanf(line, "<key> %ld kB", &var)`: the new value of `var`. The
key must stand at the start of the line; white space before the number is
optional; `var` keeps its value on a matching failure. What follows the number
has no effect on `var`. -/
def sscanf_key_ld (key : List Char) (line : List Char) (var : Int) : Int :=
  match match_literal key (c_str line) with
  | none => var
  | some rest =>
    match scan_decimal (skip_ws rest) with
    | none => var
    | some (v, _) => store_long v

/-! ## Memory sampler: `get_memory_info` -/

/-- The locals `mem_total, mem_free, mem_available, buffers, cached`. -/
structure MemFields where
  mem_total : Int
  mem_free : Int
  mem_available : Int
  buffers : Int
  cached : Int
  deriving DecidableEq, Repr

/-- Line 51: all five locals start at 0. -/
def MemFields.zero : MemFields :=
  { mem_total := 0, mem_free := 0, mem_available := 0, buffers := 0, cached := 0 }

/-- Lines 55-59: the five `sscanf` calls on one line. -/
def meminfo_scan_line (f : MemFields) (line : List Char) : MemFields :=
  { mem_total := sscanf_key_ld "MemTotal:".toList line f.mem_total
    mem_free := sscanf_key_ld "MemFree:".toList line f.mem_free
    mem_available := sscanf_key_ld "MemAvailable:".toList line f.mem_available
    buffers := sscanf_key_ld "Buffers:".toList line f.buffers
    cached := sscanf_key_ld "Cached:".toList line f.cached }

/-- Lines 54-60: the `while (fgets(...))` loop over the file. -/
def meminfo_scan (content : List Char) : MemFields :=
  (fgets_lines content).foldl meminfo_scan_line MemFields.zero

/-- The three out-parameters `*used_percent, *total_mb, *used_mb`. -/
structure MemOut where
  used_percent : Dbl
  total_mb : Int
  used_mb : Int
  deriving DecidableEq

/-- What one call of `get_memory_info` produces: the out-parameters after the
call and the divisor of every division the call evaluated. -/
structure MemResult where
  out : MemOut
  divisors : List Int
  deriving DecidableEq

/-- Line 66: `(*used_mb * 100.0) / *total_mb`. -/
def memory_percent (used_mb total_mb : Int) : Dbl :=
  Dbl.div (Dbl.mul (Dbl.ofInt used_mb) (Dbl.fin 100)) (Dbl.ofInt total_mb)

/-- `get_memory_info` (lines 47-67). `fp` is `/proc/meminfo` (`none` when
`fopen` failed); `out` holds the out-parameters as the caller passed them. -/
def get_memory_info (fp : Option (List Char)) (out : MemOut) : MemResult :=
  match fp with
  | none => { out := out, divisors := [] }
  | some content =>
    let f := meminfo_scan content
    let total_mb := Int.tdiv f.mem_total 1024
    let available_mb := Int.tdiv f.mem_available 1024
    let used_mb := wrap_long (total_mb - available_mb)
    let used_percent := memory_percent used_mb total_mb
    { out := { used_percent := used_percent, total_mb := total_mb, used_mb := used_mb }
      divisors := [1024, 1024, total_mb] }

/-! ## GPU sampler: `get_gpu_info` -/

/-- The string of line 89, one `Char` for each byte of its UTF-8 form. -/
def GPU_FALLBACK : List Char :=
  "Placa Gr\xc3\xa1fica Detectada".toList

/-- The conversion `%<width>[^,]`: the longest run of characters other than a
comma, at most `width` long; a matching failure when the run is empty. -/
def scan_not_comma (width : Nat) (s : List Char) : Option (List Char × List Char) :=
  let m := (s.takeWhile (fun c => c.toNat != 44)).take width
  if m.isEmpty then none else some (m, s.drop m.length)

/-- Outcome of `sscanf(line, "%127[^,], %d", name, &usage)`: no conversion
stored, the name alone, or both (the call then returns 2). -/
inductive GpuScan where
  | nothing
  | name_only (name : List Char)
  | both (name : List Char) (usage : Int)
  deriving DecidableEq

/-- The call `sscanf(line, "%127[^,], %d", name, &usage)`. -/
def sscanf_gpu (line : List Char) : GpuScan :=
  match scan_not_comma 127 (c_str line) with
  | none => GpuScan.nothing
  | some (name, rest) =>
    match match_literal [Char.ofNat 44] rest with
    | none => GpuScan.name_only name
    | some rest =>
      match scan_decimal (skip_ws rest) with
      | none => GpuScan.name_only name
      | some (v, _) => GpuScan.both name (store_int v)

/-- `strncpy(dest, src, n)` for a C string `src` and a buffer `dest` of at
least `n` characters: the first `n` characters of `dest` become `src`, cut to
`n` characters or padded with NULs up to `n`; the rest of `dest` is untouched. -/
def strncpy (dest src : List Char) (n : Nat) : List Char :=
  src.take n ++ List.replicate (n - src.length) NUL ++ dest.drop n

/-- `strcpy(dest, src)` for a C string `src` shorter than the buffer `dest`:
`src` and its terminator are written, the rest of `dest` is untouched. -/
def strcpy (dest src : List Char) : List Char :=
  src ++ [NUL] ++ dest.drop (src.length + 1)

/-- The string a reader of the buffer sees: the characters before the first
NUL, or `none` when the buffer holds no NUL (the read runs past its end). -/
def read_c_str (buf : List Char) : Option (List Char) :=
  if NUL ∈ buf then some (c_str buf) else none

/-- The out-parameters of `get_gpu_info`: the caller's buffer `gpu_name` (128
characters in `update_system_info`) and `*gpu_usage`. -/
structure GpuOut where
  gpu_name : List Char
  gpu_usage : Dbl
  deriving DecidableEq

/-- `get_gpu_info` (lines 70-91). `fp` is the output of the query command
(`none` when `popen` failed); `gpu_name` is the caller's buffer as passed. -/
def get_gpu_info (fp : Option (List Char)) (gpu_name : List Char) : GpuOut :=
  let fallback : GpuOut :=
    { gpu_name := strcpy gpu_name GPU_FALLBACK, gpu_usage := Dbl.fin 0 }
  match fp with
  | none => fallback
  | some output =>
    match (fgets_lines output).head? with
    | none => fallback
    | some line =>
      match sscanf_gpu line with
      | GpuScan.both name usage =>
        { gpu_name := strncpy gpu_name name 127, gpu_usage := Dbl.ofInt usage }
      | _ => fallback

/-! ## Temperature sampler: `get_cpu_temperature` -/

/-- The call `fscanf(fp, "%d", &temp_millicelsius)`: the `int` it stores, or
`none` when it converts nothing. -/
def fscanf_d (content : List Char) : Option Int :=
  match scan_decimal content with
  | none => none
  | some (v, _) => some (store_int v)

/-- `get_cpu_temperature` (lines 94-103). `fp` is the thermal-zone file (`none`
when `fopen` failed); `temp_millicelsius` is the value the uninitialised local
holds, which survives when `fscanf` converts nothing. -/
def get_cpu_temperature (fp : Option (List Char)) (temp_millicelsius : Int) : Dbl :=
  match fp with
  | none => Dbl.fin 0
  | some content =>
    let t : Int :=
      match fscanf_d content with
      | none => temp_millicelsius
      | some m => m
    Dbl.div (Dbl.ofInt t) (Dbl.fin 1000)

/-! ## Poller: `update_system_info`, `on_window_destroy` and `main` -/

/-- What the four sources hold at the time of one update, together with the
values found in the locals `update_system_info` passes uninitialised. -/
structure Sources where
  stat : Option CounterSample
  meminfo : Option (List Char)
  gpu : Option (List Char)
  thermal : Option (List Char)
  stack_mem : MemOut
  stack_gpu_name : List Char
  stack_temp : Int

/-- The values one call of `update_system_info` hands to the widgets. -/
structure Snapshot where
  cpu_usage : Dbl
  memory : MemOut
  gpu : GpuOut
  temp : Dbl
  deriving DecidableEq

/-- What one call of `update_system_info` produces: the values shown, the
statics of `get_cpu_usage` after it, and the returned `gboolean`. -/
structure UpdateResult where
  snapshot : Snapshot
  cpu : CpuState
  keep : Bool

/-- `update_system_info` (lines 106-141): the four samplers in order, then
`return TRUE`. -/
def update_system_info (cpu : CpuState) (src : Sources) : UpdateResult :=
  let c := get_cpu_usage cpu src.stat
  let m := get_memory_info src.meminfo src.stack_mem
  let g := get_gpu_info src.gpu src.stack_gpu_name
  let t := get_cpu_temperature src.thermal src.stack_temp
  { snapshot := { cpu_usage := c.ret, memory := m.out, gpu := g, temp := t }
    cpu := c.state
    keep := true }

/-- The GLib main context as far as the program uses it: the ids of the
attached timeout sources and the id the next source gets. -/
structure MainContext where
  next_id : Nat
  sources : List Nat
  deriving DecidableEq

/-- A fresh main context: no source, ids start at 1. -/
def MainContext.initial : MainContext := { next_id := 1, sources := [] }

/-- GLib `g_timeout_add`: attaches a timeout source and returns its id, which
is greater than 0. -/
def g_timeout_add (ctx : MainContext) : Nat × MainContext :=
  (ctx.next_id, { next_id := ctx.next_id + 1, sources := ctx.next_id :: ctx.sources })

/-- GLib `g_source_remove`: detaches the source with the given id. -/
def g_source_remove (ctx : MainContext) (id : Nat) : MainContext :=
  { ctx with sources := ctx.sources.filter (fun i => i != id) }

/-- Where `main` stands: before `gtk_main`, inside it, or after `gtk_main_quit`. -/
inductive Phase where
  | not_started
  | in_main_loop
  | finished
  deriving DecidableEq

/-- The process as the poller sees it: `monitor.timer_id`, whether the
`destroy` handler is connected, the main context, the statics of
`get_cpu_usage`, and every snapshot delivered so far, latest first. -/
structure Poller where
  phase : Phase
  timer_id : Nat
  destroy_connected : Bool
  ctx : MainContext
  cpu : CpuState
  delivered : List Snapshot

/-- The process at entry of `main`: `SystemMonitor monitor = {0}` (line 195). -/
def Poller.initial : Poller :=
  { phase := Phase.not_started, timer_id := 0, destroy_connected := false,
    ctx := MainContext.initial, cpu := CpuState.initial, delivered := [] }

/-- The events of the poller: `main` runs up to `gtk_main`; one period of the
timeout elapses; the window is destroyed. -/
inductive Event where
  | start (src : Sources)
  | tick (src : Sources)
  | cancel

/-- The event is the destruction of the window. -/
def Event.isCancel : Event → Bool
  | Event.cancel => true
  | _ => false

/-- `on_window_destroy` (lines 184-190). -/
def on_window_destroy (p : Poller) : Poller :=
  let ctx := if p.timer_id > 0 then g_source_remove p.ctx p.timer_id else p.ctx
  { p with ctx := ctx, phase := Phase.finished }

/-- Lines 262-275 of `main`: arm the timeout, connect the handler, update once,
enter the main loop. -/
def main_start (p : Poller) (src : Sources) : Poller :=
  let t := g_timeout_add p.ctx
  let u := update_system_info p.cpu src
  { phase := Phase.in_main_loop, timer_id := t.1, destroy_connected := true,
    ctx := t.2, cpu := u.cpu, delivered := u.snapshot :: p.delivered }

/-- The main loop dispatching the timeout source of `monitor.timer_id`: the
callback runs, and the source stays attached exactly when it returns `TRUE`. -/
def dispatch_timeout (p : Poller) (src : Sources) : Poller :=
  let u := update_system_info p.cpu src
  let ctx := if u.keep then p.ctx else g_source_remove p.ctx p.timer_id
  { p with ctx := ctx, cpu := u.cpu, delivered := u.snapshot :: p.delivered }

/-- The timeout of the poller is armed: the main loop runs and the source of
`monitor.timer_id` is attached. -/
def Poller.armed (p : Poller) : Bool :=
  decide (p.phase = Phase.in_main_loop) && decide (p.timer_id ∈ p.ctx.sources)

/-- One event. `start` has an effect once, at process start; a period elapsing
dispatches the callback only while the timeout is armed; destroying the window
runs the handler only while the main loop runs with the handler connected. -/
def step (p : Poller) : Event → Poller
  | Event.start src => if p.phase = Phase.not_started then main_start p src else p
  | Event.tick src => if p.armed then dispatch_timeout p src else p
  | Event.cancel =>
    if p.phase = Phase.in_main_loop ∧ p.destroy_connected = true then on_window_destroy p else p

/-- A sequence of events, from a given state. -/
def run (p : Poller) (evs : List Event) : Poller :=
  evs.foldl step p

/-! ## Decimal numerals, to write down what a file holds -/

/-- The character of the decimal digit `d`. -/
def digit_char (d : Nat) : Char := Char.ofNat (48 + d)

/-- The decimal numeral of a natural number, most significant digit first. -/
def decimal_text (n : Nat) : List Char :=
  if n = 0 then [digit_char 0] else (Nat.digits 10 n).reverse.map digit_char

/-- The decimal numeral of an integer, with a minus sign when it is negative. -/
def int_text (m : Int) : List Char :=
  if m < 0 then Char.ofNat 45 :: decimal_text m.natAbs else decimal_text m.natAbs

/-- A line of a text file that `fgets` returns whole: no newline and no NUL in
it, and at most 254 characters before its newline. -/
def plain_line (body : List Char) : Prop :=
  (∀ c ∈ body, c.toNat ≠ 10) ∧ (∀ c ∈ body, (c != NUL) = true) ∧ body.length ≤ 254

instance (body : List Char) : Decidable (plain_line body) := by
  unfold plain_line
  exact inferInstance

/-- The text file made of the given lines, each ended by a newline. -/
def text_of_lines : List (List Char) → List Char
  | [] => []
  | l :: ls => l ++ Char.ofNat 10 :: text_of_lines ls

/-- The line starts with the key. -/
def line_starts_with (key line : List Char) : Prop :=
  ∃ rest, line = key ++ rest

/-- The line reads `<key><white space><numeral of v>`, followed by something
that does not start with a digit (as in `MemTotal:   16384000 kB`). -/
def line_gives (key : List Char) (v : Int) (line : List Char) : Prop :=
  ∃ ws rest, line = key ++ (ws ++ (int_text v ++ rest)) ∧
    (∀ c ∈ ws, isspace c = true) ∧ (∀ c, rest.head? = some c → isdigit c = false)

/-- The content is a text file of plain lines in which the last line that
starts with the key gives the value `v`. -/
def file_gives (key : List Char) (v : Int) (content : List Char) : Prop :=
  ∃ before line after, content = text_of_lines (before ++ line :: after) ∧
    (∀ l ∈ before ++ line :: after, plain_line l) ∧ line_gives key v line ∧
    ∀ l ∈ after, ¬ line_starts_with key l

/-- The file holds the integer `m`: optional white space, the numeral of `m`,
then something that does not start with a digit. -/
def file_holds_integer (m : Int) (content : List Char) : Prop :=
  ∃ ws rest, content = ws ++ (int_text m ++ rest) ∧
    (∀ c ∈ ws, isspace c = true) ∧ (∀ c, rest.head? = some c → isdigit c = false)

/-- An output line `<name>, <usage>` of the query command. -/
def gpu_text (name : List Char) (usage : Int) : List Char :=
  name ++ ", ".toList ++ int_text usage ++ "\n".toList

/-! ## Concrete inputs used by the examples -/

/-- A first sample: 10 ticks of user time, 10 idle ticks. -/
def sample_early : CounterSample :=
  { user := 10, nice := 0, system := 0, idle := 10, iowait := 0, irq := 0, softirq := 0 }

/-- A later sample: one more tick of user time, one more idle tick. -/
def sample_late : CounterSample :=
  { user := 11, nice := 0, system := 0, idle := 11, iowait := 0, irq := 0, softirq := 0 }

/-- A sample whose total is 20 with 15 idle ticks. -/
def sample_same_total : CounterSample :=
  { user := 5, nice := 0, system := 0, idle := 15, iowait := 0, irq := 0, softirq := 0 }

/-- A sample with 10 idle ticks and nothing else: total 10. -/
def sample_idle_high : CounterSample :=
  { user := 0, nice := 0, system := 0, idle := 10, iowait := 0, irq := 0, softirq := 0 }

/-- A sample read after `sample_idle_high` in which `idle` went down to 5 while
the total went up to 25. -/
def sample_idle_low : CounterSample :=
  { user := 20, nice := 0, system := 0, idle := 5, iowait := 0, irq := 0, softirq := 0 }

/-- A sample whose seven-field sum is `2 ^ 64`. -/
def sample_overflow : CounterSample :=
  { user := 2 ^ 64 - 1, nice := 1, system := 0, idle := 0, iowait := 0, irq := 0, softirq := 0 }

/-- A memory-info file with the two lines of the specification's example. -/
def meminfo_example : List Char :=
  "MemTotal: 16384000 kB\nMemAvailable: 8192000 kB\n".toList

/-- A memory-info file without a `MemTotal` line. -/
def meminfo_no_total : List Char :=
  "MemAvailable: 2048 kB\n".toList

/-- Values left in the caller's uninitialised locals. -/
def stack_garbage : MemOut :=
  { used_percent := Dbl.fin 7, total_mb := 5, used_mb := 3 }

/-- The thermal-zone content of the specification's example. -/
def thermal_example : List Char :=
  "45230".toList

/-- A thermal-zone file that reports 0 millidegrees. -/
def thermal_zero : List Char :=
  "0\n".toList

/-- The caller's 128-character buffer `gpu_name`, holding no NUL. -/
def gpu_stack_buffer : List Char :=
  List.replicate 128 (Char.ofNat 120)

/-- The sources of a host without a thermal zone. -/
def sources_no_sensor : Sources :=
  { stat := some sample_early, meminfo := some meminfo_example, gpu := none, thermal := none,
    stack_mem := stack_garbage, stack_gpu_name := gpu_stack_buffer, stack_temp := 0 }

/-- The same host with a thermal zone that reports 0 millidegrees. -/
def sources_zero_degrees : Sources :=
  { stat := some sample_early, meminfo := some meminfo_example, gpu := none,
    thermal := some thermal_zero, stack_mem := stack_garbage,
    stack_gpu_name := gpu_stack_buffer, stack_temp := 0 }

/-- The output of the query command in the specification's example. -/
def gpu_example : List Char :=
  "NVIDIA RTX 3080, 42".toList

/-- An output line with a name of exactly 127 characters. -/
def gpu_line_127 : List Char :=
  List.replicate 127 (Char.ofNat 65) ++ ", 42\n".toList

/-- A memory-info file with 3 MB in total and 2 MB available. -/
def meminfo_one_third : List Char :=
  "MemTotal: 3072 kB\nMemAvailable: 2048 kB\n".toList

/-- A memory-info file whose `MemTotal` is `2 ^ 63` kB, one more than the
greatest `long`. -/
def meminfo_beyond_long : List Char :=
  "MemTotal: 9223372036854775808 kB\nMemAvailable: 0 kB\n".toList

/-- A memory-info file with 360287970189643 MB in total and nothing available. -/
def meminfo_huge : List Char :=
  "MemTotal: 368934881474194432 kB\nMemAvailable: 0 kB\n".toList

/-- A thermal-zone file holding `2 ^ 32 + 500`, more than the greatest `int`. -/
def thermal_beyond_int : List Char :=
  "4294967796\n".toList

/-! ## Decimal numerals and the decimal conversion -/

theorem digit_char_toNat {d : Nat} (h : d < 10) : (digit_char d).toNat = 48 + d := by
  unfold digit_char
  interval_cases d <;> decide

theorem isdigit_digit_char {d : Nat} (h : d < 10) : isdigit (digit_char d) = true := by
  simp only [isdigit, digit_char_toNat h, Bool.and_eq_true, decide_eq_true_eq]
  omega

theorem digit_val_digit_char {d : Nat} (h : d < 10) : digit_val (digit_char d) = d := by
  simp [digit_val, digit_char_toNat h]

theorem decimal_text_ne_nil (n : Nat) : decimal_text n ≠ [] := by
  unfold decimal_text
  split
  · simp
  · rename_i h
    simpa using (Nat.digits_ne_nil_iff_ne_zero.mpr h)

theorem decimal_text_isdigit (n : Nat) : ∀ c ∈ decimal_text n, isdigit c = true := by
  intro c hc
  unfold decimal_text at hc
  split at hc
  · simp only [List.mem_singleton] at hc
    subst hc
    exact isdigit_digit_char (by norm_num)
  · simp only [List.mem_map, List.mem_reverse] at hc
    obtain ⟨d, hd, rfl⟩ := hc
    exact isdigit_digit_char (Nat.digits_lt_base (by norm_num) hd)

/-- The value of a digit string, by the positional formula. -/
theorem decimal_value_foldl (ds : List Char) (acc : Nat) :
    ds.foldl (fun a c => 10 * a + digit_val c) acc =
      acc * 10 ^ ds.length + Nat.ofDigits 10 (ds.map digit_val).reverse := by
  induction ds generalizing acc with
  | nil => simp
  | cons d rest ih =>
    simp only [List.foldl_cons, List.map_cons, List.reverse_cons, List.length_cons]
    rw [ih, Nat.ofDigits_append, Nat.ofDigits_singleton]
    simp only [List.length_reverse, List.length_map]
    ring

/-- Reading the numeral of `n` gives `n` back. -/
theorem decimal_value_decimal_text (n : Nat) : decimal_value (decimal_text n) = n := by
  unfold decimal_value
  rw [decimal_value_foldl]
  unfold decimal_text
  split
  · rename_i h
    subst h
    simp [digit_val_digit_char]
  · have hmap : (List.map digit_val (List.map digit_char (Nat.digits 10 n).reverse)).reverse =
        Nat.digits 10 n := by
      rw [List.map_map, ← List.map_reverse, List.reverse_reverse]
      conv_rhs => rw [← List.map_id (Nat.digits 10 n)]
      apply List.map_congr_left
      intro d hd
      exact digit_val_digit_char (Nat.digits_lt_base (by norm_num) hd)
    rw [hmap, Nat.ofDigits_digits]
    simp

theorem decimal_text_length {n : Nat} (h : n < 10 ^ 19) : (decimal_text n).length ≤ 19 := by
  unfold decimal_text
  split
  · simp
  · rename_i hn
    simp only [List.length_map, List.length_reverse]
    have h1 := Nat.base_pow_length_digits_le 10 n (by norm_num) hn
    have h2 : 10 ^ (Nat.digits 10 n).length < 10 ^ 20 := by omega
    have h3 := (Nat.pow_lt_pow_iff_right (by norm_num : 1 < 10)).mp h2
    omega

theorem isdigit_not_isspace {c : Char} (h : isdigit c = true) : isspace c = false := by
  simp only [isdigit, isspace, Bool.and_eq_true, Bool.or_eq_false_iff, decide_eq_true_eq,
    decide_eq_false_iff_not, Bool.and_eq_false_iff] at *
  omega

theorem isdigit_ne_NUL {c : Char} (h : isdigit c = true) : (c != NUL) = true := by
  simp only [isdigit, Bool.and_eq_true, decide_eq_true_eq] at h
  simp only [bne_iff_ne, ne_eq]
  intro hc
  subst hc
  have : NUL.toNat = 0 := by decide
  omega

theorem isspace_ne_NUL {c : Char} (h : isspace c = true) : (c != NUL) = true := by
  simp only [isspace, Bool.or_eq_true, Bool.and_eq_true, decide_eq_true_eq] at h
  simp only [bne_iff_ne, ne_eq]
  intro hc
  subst hc
  have : NUL.toNat = 0 := by decide
  omega

/-- A run of digits followed by something that is not a digit converts to its
value, and the conversion stops right after the run. -/
theorem scan_decimal_of_digits (ds rest : List Char) (hne : ds ≠ [])
    (hds : ∀ c ∈ ds, isdigit c = true)
    (hrest : ∀ c, rest.head? = some c → isdigit c = false) :
    scan_decimal (ds ++ rest) = some ((decimal_value ds : Int), rest) := by
  obtain ⟨d, ds', rfl⟩ := List.exists_cons_of_ne_nil hne
  have hd : isdigit d = true := hds d (List.mem_cons_self _ _)
  have hsp : isspace d = false := isdigit_not_isspace hd
  have htake : (d :: ds' ++ rest).takeWhile isdigit = d :: ds' := by
    rw [List.takeWhile_append_of_pos hds]
    cases rest with
    | nil => simp
    | cons r rs => simp [hrest r rfl]
  have hdrop : (d :: ds' ++ rest).dropWhile isdigit = rest := by
    rw [List.dropWhile_append_of_pos hds]
    cases rest with
    | nil => simp
    | cons r rs => simp [hrest r rfl]
  have h45 : d.toNat ≠ 45 := by
    simp only [isdigit, Bool.and_eq_true, decide_eq_true_eq] at hd; omega
  have h43 : d.toNat ≠ 43 := by
    simp only [isdigit, Bool.and_eq_true, decide_eq_true_eq] at hd; omega
  have hskip : skip_ws (d :: ds' ++ rest) = d :: ds' ++ rest := by
    simp [skip_ws, hsp]
  unfold scan_decimal
  rw [hskip]
  simp only [List.cons_append, h45, h43, if_false]
  rw [← List.cons_append, htake, hdrop]
  simp

/-- White space before the number is skipped. -/
theorem scan_decimal_skip_ws (ws s : List Char) (hws : ∀ c ∈ ws, isspace c = true) :
    scan_decimal (ws ++ s) = scan_decimal s := by
  have h : skip_ws (ws ++ s) = skip_ws s := by
    unfold skip_ws
    exact List.dropWhile_append_of_pos hws
  unfold scan_decimal
  rw [h]

theorem int_text_ne_NUL (m : Int) : ∀ c ∈ int_text m, (c != NUL) = true := by
  intro c hc
  unfold int_text at hc
  split at hc
  · rcases List.mem_cons.mp hc with rfl | h
    · decide
    · exact isdigit_ne_NUL (decimal_text_isdigit _ c h)
  · exact isdigit_ne_NUL (decimal_text_isdigit _ c hc)

/-- The numeral of `m` followed by something that is not a digit converts to
`m`. -/
theorem scan_decimal_int_text (m : Int) (rest : List Char)
    (hrest : ∀ c, rest.head? = some c → isdigit c = false) :
    scan_decimal (int_text m ++ rest) = some (m, rest) := by
  unfold int_text
  split
  · rename_i hneg
    obtain ⟨d, ds', hd⟩ := List.exists_cons_of_ne_nil (decimal_text_ne_nil m.natAbs)
    have hdig := decimal_text_isdigit m.natAbs
    have htake : (decimal_text m.natAbs ++ rest).takeWhile isdigit = decimal_text m.natAbs := by
      rw [List.takeWhile_append_of_pos hdig]
      cases rest with
      | nil => simp
      | cons r rs => simp [hrest r rfl]
    have hdrop : (decimal_text m.natAbs ++ rest).dropWhile isdigit = rest := by
      rw [List.dropWhile_append_of_pos hdig]
      cases rest with
      | nil => simp
      | cons r rs => simp [hrest r rfl]
    have hsp : isspace (Char.ofNat 45) = false := by decide
    have h45 : (Char.ofNat 45).toNat = 45 := by decide
    have hskip : skip_ws (Char.ofNat 45 :: decimal_text m.natAbs ++ rest) =
        Char.ofNat 45 :: (decimal_text m.natAbs ++ rest) := by
      simp [skip_ws, hsp]
    have hval : -((decimal_value (decimal_text m.natAbs) : ℕ) : Int) = m := by
      rw [decimal_value_decimal_text]
      omega
    have hne : (decimal_text m.natAbs).isEmpty = false := by
      rw [hd]; rfl
    unfold scan_decimal
    rw [hskip]
    simp only [h45, if_true, htake, hdrop, hne, hval]
    simp
  · rename_i hnn
    rw [scan_decimal_of_digits (decimal_text m.natAbs) rest (decimal_text_ne_nil _)
      (decimal_text_isdigit _) hrest, decimal_value_decimal_text]
    have : ((m.natAbs : ℕ) : Int) = m := by omega
    rw [this]

theorem match_literal_append (key s : List Char) : match_literal key (key ++ s) = some s := by
  induction key with
  | nil => cases s <;> rfl
  | cons k ks ih => simp [match_literal, ih]

theorem c_str_append (a b : List Char) (ha : ∀ c ∈ a, (c != NUL) = true) :
    c_str (a ++ b) = a ++ c_str b := by
  unfold c_str
  exact List.takeWhile_append_of_pos ha

theorem c_str_head (s : List Char) (c : Char) (h : (c_str s).head? = some c) :
    s.head? = some c := by
  cases s with
  | nil => simp [c_str] at h
  | cons x xs =>
    unfold c_str at h
    rw [List.takeWhile_cons] at h
    split at h
    · simpa using h
    · simp at h

/-- The call `sscanf(line, "<key> %ld kB", &var)` on a line that starts with
the key, white space and the numeral of `n` stores `n` converted to `long`. -/
theorem sscanf_key_ld_of_text (key ws rest : List Char) (n var : Int)
    (hkey : ∀ c ∈ key, (c != NUL) = true) (hws : ∀ c ∈ ws, isspace c = true)
    (hrest : ∀ c, rest.head? = some c → isdigit c = false) :
    sscanf_key_ld key (key ++ (ws ++ (int_text n ++ rest))) var = store_long n := by
  have hwsn : ∀ c ∈ ws, (c != NUL) = true := fun c hc => isspace_ne_NUL (hws c hc)
  have hrest' : ∀ c, (c_str rest).head? = some c → isdigit c = false :=
    fun c hc => hrest c (c_str_head rest c hc)
  have hskip : skip_ws (ws ++ (int_text n ++ c_str rest)) = skip_ws (int_text n ++ c_str rest) := by
    unfold skip_ws
    exact List.dropWhile_append_of_pos hws
  unfold sscanf_key_ld
  rw [c_str_append _ _ hkey, c_str_append _ _ hwsn, c_str_append _ _ (int_text_ne_NUL n),
    match_literal_append]
  simp only
  have hsc : scan_decimal (skip_ws (ws ++ (int_text n ++ c_str rest))) =
      some (n, c_str rest) := by
    rw [hskip]
    have h2 : scan_decimal (skip_ws (int_text n ++ c_str rest)) =
        scan_decimal (int_text n ++ c_str rest) := by
      unfold scan_decimal
      have hidem : skip_ws (skip_ws (int_text n ++ c_str rest)) =
          skip_ws (int_text n ++ c_str rest) := by
        unfold skip_ws
        rw [List.dropWhile_idempotent]
      rw [hidem]
    rw [h2]
    exact scan_decimal_int_text n (c_str rest) hrest'
  rw [hsc]

/-! ## Lines read by `fgets` -/

/-- A line shorter than the buffer and ended by a newline is returned whole by
one call of `fgets`. -/
theorem fgets_from_line (body rest acc : List Char) (hbody : ∀ c ∈ body, c.toNat ≠ 10)
    (hlen : acc.length + body.length + 2 ≤ 256) :
    fgets_from 256 (body ++ Char.ofNat 10 :: rest) acc =
      (acc.reverse ++ body ++ [Char.ofNat 10]) :: fgets_from 256 rest [] := by
  induction body generalizing acc with
  | nil =>
    have h10 : (Char.ofNat 10).toNat = 10 := by decide
    simp [fgets_from, h10]
  | cons b bs ih =>
    have hb : b.toNat ≠ 10 := hbody b (List.mem_cons_self _ _)
    have hbs : ∀ c ∈ bs, c.toNat ≠ 10 := fun c hc => hbody c (List.mem_cons_of_mem _ hc)
    simp only [List.length_cons] at hlen
    have hsize : ¬ (256 ≤ acc.length + 2) := by omega
    simp only [List.cons_append, fgets_from, hb, hsize, decide_False, Bool.or_self,
      Bool.false_eq_true, if_false, List.append_eq]
    rw [ih (b :: acc) hbs (by simp only [List.length_cons]; omega)]
    simp


/-! ## Rounding: properties of the `double` model -/

theorem round_half_even_cases (s : ℚ) :
    round_half_even s = ⌊s⌋ ∨ round_half_even s = ⌊s⌋ + 1 := by
  unfold round_half_even
  split_ifs <;> simp

theorem round_half_even_intCast (n : Int) : round_half_even (n : ℚ) = n := by
  unfold round_half_even
  simp

theorem round_half_even_sub_le (s : ℚ) : |(round_half_even s : ℚ) - s| ≤ 1 / 2 := by
  have h1 := Int.floor_le s
  have h2 := Int.lt_floor_add_one s
  unfold round_half_even
  rw [abs_le]
  split_ifs with ha hb hc
  · constructor <;> linarith
  · push_cast
    constructor <;> linarith
  · constructor <;> linarith
  · push_cast
    constructor <;> linarith

/-- A number closer than one half to an integer rounds to it. -/
theorem round_half_even_of_close (s : ℚ) (n : Int) (h : |s - n| < 1 / 2) :
    round_half_even s = n := by
  rw [abs_lt] at h
  have hb := round_half_even_sub_le s
  rw [abs_le] at hb
  have h1 : ((round_half_even s - n : Int) : ℚ) < 1 := by push_cast; linarith
  have h2 : (-1 : ℚ) < ((round_half_even s - n : Int) : ℚ) := by push_cast; linarith
  have h3 : round_half_even s - n < 1 := by exact_mod_cast h1
  have h4 : -1 < round_half_even s - n := by exact_mod_cast h2
  omega

/-- A number half-way between two integers rounds to the even one. -/
theorem round_half_even_of_tie (s : ℚ) (n : Int) (h : s = n + 1 / 2) :
    round_half_even s = if n % 2 = 0 then n else n + 1 := by
  have hf : ⌊s⌋ = n := by
    rw [Int.floor_eq_iff]
    constructor <;> rw [h] <;> linarith
  unfold round_half_even
  rw [hf, h]
  have e : ((n : ℚ) + 1 / 2 - n) = 1 / 2 := by ring
  simp only [e, lt_irrefl, if_false]

theorem round_half_even_mono {s t : ℚ} (h : s ≤ t) : round_half_even s ≤ round_half_even t := by
  have hf : ⌊s⌋ ≤ ⌊t⌋ := Int.floor_mono h
  rcases lt_or_eq_of_le hf with hlt | heq
  · -- different floors
    rcases round_half_even_cases s with hs | hs <;> rcases round_half_even_cases t with ht | ht <;>
      rw [hs, ht] <;> omega
  · -- same floor
    unfold round_half_even
    rw [heq]
    have hst : s - ⌊t⌋ ≤ t - ⌊t⌋ := by linarith
    split_ifs <;> first | omega | (exfalso; linarith)

theorem round_half_even_nonneg {s : ℚ} (h : 0 ≤ s) : 0 ≤ round_half_even s := by
  have := round_half_even_mono h
  rwa [show ((0 : ℚ)) = ((0 : Int) : ℚ) by simp, round_half_even_intCast] at this

/-! ### Rounding to the nearest `double` -/

theorem two_zpow_eq_intCast {k : Int} (hk : 0 ≤ k) :
    (2 : ℚ) ^ k = ((2 ^ k.toNat : Int) : ℚ) := by
  obtain ⟨n, rfl⟩ := Int.eq_ofNat_of_zero_le hk
  simp [zpow_natCast]

theorem two_zpow_log_le {a : ℚ} (ha : 0 < a) : (2 : ℚ) ^ Int.log 2 a ≤ a := by
  have h := Int.zpow_log_le_self (R := ℚ) (b := 2) (by norm_num) ha
  simpa using h

theorem lt_two_zpow_log_succ (a : ℚ) : a < (2 : ℚ) ^ (Int.log 2 a + 1) := by
  have h := Int.lt_zpow_succ_log_self (R := ℚ) (b := 2) (by norm_num) a
  simpa using h

/-- The exponent of a positive number lying in the binade of `2 ^ e`. -/
theorem log_eq_of_binade {a : ℚ} {e : Int} (h1 : (2 : ℚ) ^ e ≤ a) (h2 : a < (2 : ℚ) ^ (e + 1)) :
    Int.log 2 a = e := by
  have ha : 0 < a := lt_of_lt_of_le (zpow_pos (by norm_num) e) h1
  have hle : e ≤ Int.log 2 a := by
    rw [← Int.zpow_le_iff_le_log (by norm_num) ha]
    simpa using h1
  have hlt : Int.log 2 a < e + 1 := by
    rw [← Int.lt_zpow_iff_log_lt (by norm_num) ha]
    simpa using h2
  omega

theorem round_nearest_of_nonneg {q : ℚ} (h : 0 ≤ q) :
    round_nearest q =
      (round_half_even (q / 2 ^ ulp_exponent q) : ℚ) * 2 ^ ulp_exponent q := by
  unfold round_nearest
  simp [not_lt.mpr h, abs_of_nonneg h]

theorem round_nearest_zero : round_nearest 0 = 0 := by
  rw [round_nearest_of_nonneg le_rfl]
  simp [round_half_even]

theorem round_nearest_neg (q : ℚ) : round_nearest (-q) = -round_nearest q := by
  rcases lt_trichotomy q 0 with h | h | h
  · have h' : ¬ (-q < 0) := by linarith [h]
    unfold round_nearest
    simp [h, h']
  · subst h
    simp [round_nearest_zero]
  · have h' : ¬ (q < 0) := by linarith [h]
    have h'' : -q < 0 := by linarith
    unfold round_nearest
    simp [h', h'']

theorem round_nearest_nonneg {q : ℚ} (h : 0 ≤ q) : 0 ≤ round_nearest q := by
  rw [round_nearest_of_nonneg h]
  apply mul_nonneg
  · have : 0 ≤ round_half_even (q / 2 ^ ulp_exponent q) :=
      round_half_even_nonneg (div_nonneg h (zpow_pos (by norm_num) _).le)
    exact_mod_cast this
  · exact (zpow_pos (by norm_num) _).le

/-- A number `n * 2 ^ k` with `|n| < 2 ^ 53` and `k ≥ -1074` is a `double`:
rounding leaves it alone. -/
theorem round_nearest_of_representable (n k : Int) (hn : |n| < 2 ^ 53) (hk : -1074 ≤ k) :
    round_nearest ((n : ℚ) * 2 ^ k) = (n : ℚ) * 2 ^ k := by
  have key : ∀ m : Int, 0 < m → m < 2 ^ 53 →
      round_nearest ((m : ℚ) * 2 ^ k) = (m : ℚ) * 2 ^ k := by
    intro m hm0 hm
    have h2k : (0 : ℚ) < 2 ^ k := zpow_pos (by norm_num) k
    have hmq : (0 : ℚ) < (m : ℚ) := by exact_mod_cast hm0
    have hpos : (0 : ℚ) < (m : ℚ) * 2 ^ k := mul_pos hmq h2k
    rw [round_nearest_of_nonneg hpos.le]
    set a : ℚ := (m : ℚ) * 2 ^ k with ha
    set p : Int := ulp_exponent a with hp
    -- the exponent of `a` is below `53 + k`
    have hlt : a < (2 : ℚ) ^ (53 + k) := by
      rw [zpow_add₀ (by norm_num : (2 : ℚ) ≠ 0)]
      have : (m : ℚ) < 2 ^ (53 : Int) := by
        have h53 : (2 : ℚ) ^ (53 : Int) = 9007199254740992 := by norm_num
        have hm' : m < 9007199254740992 := by norm_num at hm; exact hm
        rw [h53]
        exact_mod_cast hm'
      exact mul_lt_mul_of_pos_right this h2k
    have hlog : Int.log 2 a < 53 + k := by
      rw [← Int.lt_zpow_iff_log_lt (by norm_num) hpos]
      simpa using hlt
    have hpk : p ≤ k := by
      rw [hp]
      unfold ulp_exponent
      omega
    have hscaled : a / 2 ^ p = ((m * 2 ^ (k - p).toNat : Int) : ℚ) := by
      rw [ha, mul_div_assoc, ← zpow_sub₀ (by norm_num : (2 : ℚ) ≠ 0),
        two_zpow_eq_intCast (by omega : 0 ≤ k - p)]
      push_cast
      ring
    rw [hscaled, round_half_even_intCast]
    rw [← hscaled]
    field_simp
  rcases lt_trichotomy n 0 with h | h | h
  · have hneg : ((n : ℚ) * 2 ^ k) = -(((-n : Int) : ℚ) * 2 ^ k) := by push_cast; ring
    rw [hneg, round_nearest_neg, key (-n) (by omega) (by rw [abs_lt] at hn; omega)]
  · subst h
    simp [round_nearest_zero]
  · exact key n h (by rw [abs_lt] at hn; omega)

theorem round_nearest_intCast (n : Int) (hn : |n| < 2 ^ 53) :
    round_nearest (n : ℚ) = n := by
  have := round_nearest_of_representable n 0 hn (by norm_num)
  simpa using this

theorem ulp_exponent_of_binade {q : ℚ} {e : Int} (h1 : (2 : ℚ) ^ e ≤ q)
    (h2 : q < (2 : ℚ) ^ (e + 1)) (he : -1022 ≤ e) : ulp_exponent q = e - 52 := by
  unfold ulp_exponent
  rw [log_eq_of_binade h1 h2]
  omega

/-- Rounding a number of the binade of `2 ^ e` that is closer than half a unit
in the last place to `n * 2 ^ (e - 52)`. -/
theorem round_nearest_of_binade {q : ℚ} {e n : Int} (h1 : (2 : ℚ) ^ e ≤ q)
    (h2 : q < (2 : ℚ) ^ (e + 1)) (he : -1022 ≤ e)
    (hn : |q / 2 ^ (e - 52) - n| < 1 / 2) :
    round_nearest q = (n : ℚ) * 2 ^ (e - 52) := by
  have hq : 0 < q := lt_of_lt_of_le (zpow_pos (by norm_num) e) h1
  rw [round_nearest_of_nonneg hq.le, ulp_exponent_of_binade h1 h2 he,
    round_half_even_of_close _ n hn]

/-- Rounding a number of the binade of `2 ^ e` that lies half-way between two
neighbouring multiples of the unit in the last place. -/
theorem round_nearest_of_binade_tie {q : ℚ} {e n : Int} (h1 : (2 : ℚ) ^ e ≤ q)
    (h2 : q < (2 : ℚ) ^ (e + 1)) (he : -1022 ≤ e)
    (hn : q / 2 ^ (e - 52) = n + 1 / 2) :
    round_nearest q = ((if n % 2 = 0 then n else n + 1 : Int) : ℚ) * 2 ^ (e - 52) := by
  have hq : 0 < q := lt_of_lt_of_le (zpow_pos (by norm_num) e) h1
  rw [round_nearest_of_nonneg hq.le, ulp_exponent_of_binade h1 h2 he,
    round_half_even_of_tie _ n hn]

/-- Rounding is monotone on the non-negative numbers. -/
theorem round_nearest_mono {a b : ℚ} (ha : 0 ≤ a) (hab : a ≤ b) :
    round_nearest a ≤ round_nearest b := by
  rcases eq_or_lt_of_le ha with h0 | hpos
  · rw [← h0, round_nearest_zero]
    exact round_nearest_nonneg (ha.trans hab)
  have hb : 0 < b := lt_of_lt_of_le hpos hab
  rw [round_nearest_of_nonneg ha, round_nearest_of_nonneg hb.le]
  have hlog : Int.log 2 a ≤ Int.log 2 b := Int.log_mono_right hpos hab
  have hp : ulp_exponent a ≤ ulp_exponent b := by
    unfold ulp_exponent
    omega
  have h2 : ∀ k : Int, (0 : ℚ) < 2 ^ k := fun k => zpow_pos (by norm_num) k
  rcases eq_or_lt_of_le hp with heq | hlt
  · rw [heq]
    apply mul_le_mul_of_nonneg_right _ (h2 _).le
    have : round_half_even (a / 2 ^ ulp_exponent b) ≤ round_half_even (b / 2 ^ ulp_exponent b) :=
      round_half_even_mono (div_le_div_of_nonneg_right hab (h2 _).le)
    exact_mod_cast this
  · have hpb : ulp_exponent b = Int.log 2 b - 52 := by
      unfold ulp_exponent at hlt ⊢
      omega
    have hea : Int.log 2 a + 1 ≤ Int.log 2 b := by
      unfold ulp_exponent at hlt
      omega
    have hpa_le : ulp_exponent a ≤ Int.log 2 b := by
      rw [hpb] at hlt
      omega
    -- `a` stays below `2 ^ eb`, and so does its rounding
    have ha_lt : a < (2 : ℚ) ^ Int.log 2 b :=
      lt_of_lt_of_le (lt_two_zpow_log_succ a) (zpow_le_zpow_right₀ (by norm_num) hea)
    have hupper : ((round_half_even (a / 2 ^ ulp_exponent a) : Int) : ℚ) * 2 ^ ulp_exponent a ≤
        (2 : ℚ) ^ Int.log 2 b := by
      have hs : a / 2 ^ ulp_exponent a ≤
          ((2 ^ (Int.log 2 b - ulp_exponent a).toNat : Int) : ℚ) := by
        rw [← two_zpow_eq_intCast (by omega), zpow_sub₀ (by norm_num : (2 : ℚ) ≠ 0)]
        exact div_le_div_of_nonneg_right ha_lt.le (h2 _).le
      have hr := round_half_even_mono hs
      rw [round_half_even_intCast] at hr
      have hr' : ((round_half_even (a / 2 ^ ulp_exponent a) : Int) : ℚ) ≤
          ((2 ^ (Int.log 2 b - ulp_exponent a).toNat : Int) : ℚ) := by exact_mod_cast hr
      calc ((round_half_even (a / 2 ^ ulp_exponent a) : Int) : ℚ) * 2 ^ ulp_exponent a
          ≤ ((2 ^ (Int.log 2 b - ulp_exponent a).toNat : Int) : ℚ) * 2 ^ ulp_exponent a :=
            mul_le_mul_of_nonneg_right hr' (h2 _).le
        _ = (2 : ℚ) ^ Int.log 2 b := by
            rw [← two_zpow_eq_intCast (by omega), ← zpow_add₀ (by norm_num : (2 : ℚ) ≠ 0)]
            congr 1
            omega
    -- `b` is at least `2 ^ eb`, and so is its rounding
    have hlower : (2 : ℚ) ^ Int.log 2 b ≤
        ((round_half_even (b / 2 ^ ulp_exponent b) : Int) : ℚ) * 2 ^ ulp_exponent b := by
      have hs : (((2 : Int) ^ 52 : Int) : ℚ) ≤ b / 2 ^ ulp_exponent b := by
        rw [le_div_iff₀ (h2 _), hpb]
        have : (((2 : Int) ^ 52 : Int) : ℚ) = (2 : ℚ) ^ (52 : Int) := by norm_num
        rw [this, ← zpow_add₀ (by norm_num : (2 : ℚ) ≠ 0)]
        have e : (52 : Int) + (Int.log 2 b - 52) = Int.log 2 b := by omega
        rw [e]
        exact two_zpow_log_le hb
      have hr := round_half_even_mono hs
      rw [round_half_even_intCast] at hr
      have hr' : (((2 : Int) ^ 52 : Int) : ℚ) ≤
          ((round_half_even (b / 2 ^ ulp_exponent b) : Int) : ℚ) := by exact_mod_cast hr
      calc (2 : ℚ) ^ Int.log 2 b = (((2 : Int) ^ 52 : Int) : ℚ) * 2 ^ ulp_exponent b := by
            have : (((2 : Int) ^ 52 : Int) : ℚ) = (2 : ℚ) ^ (52 : Int) := by norm_num
            rw [this, hpb, ← zpow_add₀ (by norm_num : (2 : ℚ) ≠ 0)]
            congr 1
            omega
        _ ≤ _ := mul_le_mul_of_nonneg_right hr' (h2 _).le
    exact hupper.trans hlower

/-- In the normal range rounding moves a number by at most the fraction
`2 ^ -53` of its magnitude. -/
theorem round_nearest_error {q : ℚ} (hq : (2 : ℚ) ^ (-1022 : Int) ≤ |q|) :
    |round_nearest q - q| ≤ |q| * 2 ^ (-53 : Int) := by
  have key : ∀ a : ℚ, (2 : ℚ) ^ (-1022 : Int) ≤ a →
      |round_nearest a - a| ≤ a * 2 ^ (-53 : Int) := by
    intro a ha
    have hpos : 0 < a := lt_of_lt_of_le (zpow_pos (by norm_num) _) ha
    have hlog : -1022 ≤ Int.log 2 a := by
      rw [← Int.zpow_le_iff_le_log (by norm_num) hpos]
      simpa using ha
    have hp : ulp_exponent a = Int.log 2 a - 52 := by
      unfold ulp_exponent
      omega
    have h2 : ∀ k : Int, (0 : ℚ) < 2 ^ k := fun k => zpow_pos (by norm_num) k
    rw [round_nearest_of_nonneg hpos.le, hp]
    set p : Int := Int.log 2 a - 52 with hpdef
    have hr := round_half_even_sub_le (a / 2 ^ p)
    have e1 : ((round_half_even (a / 2 ^ p) : Int) : ℚ) * 2 ^ p - a =
        (((round_half_even (a / 2 ^ p) : Int) : ℚ) - a / 2 ^ p) * 2 ^ p := by
      field_simp
    rw [e1, abs_mul, abs_of_pos (h2 p)]
    have hle : (2 : ℚ) ^ p * (1 / 2) ≤ a * 2 ^ (-53 : Int) := by
      have h3 : (2 : ℚ) ^ p * (1 / 2) = 2 ^ Int.log 2 a * 2 ^ (-53 : Int) := by
        have : (1 / 2 : ℚ) = 2 ^ (-1 : Int) := by norm_num
        rw [this, ← zpow_add₀ (by norm_num : (2 : ℚ) ≠ 0),
          ← zpow_add₀ (by norm_num : (2 : ℚ) ≠ 0)]
        congr 1
        omega
      rw [h3]
      exact mul_le_mul_of_nonneg_right (two_zpow_log_le hpos) (h2 _).le
    calc |((round_half_even (a / 2 ^ p) : Int) : ℚ) - a / 2 ^ p| * 2 ^ p
        ≤ (1 / 2) * 2 ^ p := mul_le_mul_of_nonneg_right hr (h2 p).le
      _ = 2 ^ p * (1 / 2) := by ring
      _ ≤ _ := hle
  rcases le_or_lt 0 q with h | h
  · rw [abs_of_nonneg h] at hq ⊢
    exact key q hq
  · rw [abs_of_neg h] at hq ⊢
    have := key (-q) hq
    rw [round_nearest_neg] at this
    have e : -round_nearest q - -q = -(round_nearest q - q) := by ring
    rwa [e, abs_neg] at this

/-! ### Operations that stay finite -/

theorem Dbl.round_of_lt {q : ℚ} (h : |round_nearest q| < 2 ^ 1024) :
    Dbl.round q = Dbl.fin (round_nearest q) := by
  unfold Dbl.round
  rw [if_neg (not_le.mpr h)]

/-- An integer below `2 ^ 53` in magnitude converts exactly. -/
theorem Dbl.round_intCast (n : Int) (hn : |n| < 2 ^ 53) : Dbl.round (n : ℚ) = Dbl.fin n := by
  have hr := round_nearest_intCast n hn
  have hlt : |round_nearest (n : ℚ)| < 2 ^ 1024 := by
    rw [hr]
    have h1 : |(n : ℚ)| < 2 ^ 53 := by
      have : ((|n| : Int) : ℚ) < ((2 ^ 53 : Int) : ℚ) := by exact_mod_cast hn
      simpa using this
    exact lt_trans h1 (by norm_num)
  rw [Dbl.round_of_lt hlt, hr]

theorem Dbl.ofInt_of_small (n : Int) (hn : |n| < 2 ^ 53) : Dbl.ofInt n = Dbl.fin n :=
  Dbl.round_intCast n hn

/-- A result between two non-negative `double`s rounds to a `double` between
them. -/
theorem Dbl.round_between {l u q : ℚ} (hlo : 0 ≤ l) (h1 : l ≤ q) (h2 : q ≤ u)
    (hrl : round_nearest l = l) (hrh : round_nearest u = u) (hfin : u < 2 ^ 1024) :
    Dbl.round q = Dbl.fin (round_nearest q) ∧ l ≤ round_nearest q ∧ round_nearest q ≤ u := by
  have hq : 0 ≤ q := hlo.trans h1
  have ha : l ≤ round_nearest q := by
    have := round_nearest_mono hlo h1
    rwa [hrl] at this
  have hb : round_nearest q ≤ u := by
    have := round_nearest_mono hq h2
    rwa [hrh] at this
  refine ⟨Dbl.round_of_lt ?_, ha, hb⟩
  rw [abs_of_nonneg (hlo.trans ha)]
  exact lt_of_le_of_lt hb hfin

theorem round_nearest_one : round_nearest 1 = 1 := by
  have := round_nearest_intCast 1 (by norm_num)
  simpa using this

theorem round_nearest_hundred : round_nearest 100 = 100 := by
  have := round_nearest_intCast 100 (by norm_num)
  simpa using this

theorem round_nearest_two_pow_64 : round_nearest (2 ^ 64) = 2 ^ 64 := by
  have h := round_nearest_of_representable 1 64 (by norm_num) (by norm_num)
  have e : ((1 : Int) : ℚ) * 2 ^ (64 : Int) = 2 ^ 64 := by norm_num
  rwa [e] at h

/-- Below `2 ^ (k + 1)` rounding moves a number by at most half a unit in the
last place of that binade, `2 ^ (k - 53)`. -/
theorem round_nearest_error_below {a : ℚ} {k : Int} (ha : 0 ≤ a) (h : a < (2 : ℚ) ^ (k + 1))
    (hk : -1022 ≤ k) : |round_nearest a - a| ≤ (2 : ℚ) ^ (k - 53) := by
  have h2 : ∀ j : Int, (0 : ℚ) < 2 ^ j := fun j => zpow_pos (by norm_num) j
  rcases eq_or_lt_of_le ha with h0 | hpos
  · rw [← h0, round_nearest_zero]
    simpa using (h2 (k - 53)).le
  have hlog : Int.log 2 a < k + 1 := by
    rw [← Int.lt_zpow_iff_log_lt (by norm_num) hpos]
    simpa using h
  have hp : ulp_exponent a ≤ k - 52 := by
    unfold ulp_exponent
    omega
  rw [round_nearest_of_nonneg ha]
  set p : Int := ulp_exponent a with hpdef
  have hr := round_half_even_sub_le (a / 2 ^ p)
  have e1 : ((round_half_even (a / 2 ^ p) : Int) : ℚ) * 2 ^ p - a =
      (((round_half_even (a / 2 ^ p) : Int) : ℚ) - a / 2 ^ p) * 2 ^ p := by
    field_simp
  rw [e1, abs_mul, abs_of_pos (h2 p)]
  have hle : (2 : ℚ) ^ p * (1 / 2) ≤ 2 ^ (k - 53) := by
    have h3 : (2 : ℚ) ^ p * (1 / 2) = 2 ^ (p - 1) := by
      have : (1 / 2 : ℚ) = 2 ^ (-1 : Int) := by norm_num
      rw [this, ← zpow_add₀ (by norm_num : (2 : ℚ) ≠ 0)]
      congr 1
    rw [h3]
    exact zpow_le_zpow_right₀ (by norm_num) (by omega)
  calc |((round_half_even (a / 2 ^ p) : Int) : ℚ) - a / 2 ^ p| * 2 ^ p
      ≤ (1 / 2) * 2 ^ p := mul_le_mul_of_nonneg_right hr (h2 p).le
    _ = 2 ^ p * (1 / 2) := by ring
    _ ≤ _ := hle

/-- Rounding a natural number moves it by at most the fraction `2 ^ -53`. -/
theorem round_nearest_natCast_error (n : Nat) :
    |round_nearest (n : ℚ) - n| ≤ (n : ℚ) * 2 ^ (-53 : Int) := by
  rcases Nat.eq_zero_or_pos n with h | h
  · subst h
    simp [round_nearest_zero]
  · have h1 : (1 : ℚ) ≤ (n : ℚ) := by exact_mod_cast h
    have hq : (2 : ℚ) ^ (-1022 : Int) ≤ |(n : ℚ)| := by
      rw [abs_of_nonneg (by linarith)]
      exact le_trans (zpow_le_one_of_nonpos₀ (by norm_num) (by norm_num)) h1
    have := round_nearest_error hq
    rwa [abs_of_nonneg (by linarith : (0 : ℚ) ≤ n)] at this

/-- The quotient of two numbers known up to the fraction `u ≤ 1 / 3` each is
within `3 * u` of the quotient of the numbers themselves, for `0 ≤ a ≤ b`. -/
theorem quotient_of_rounded_close {a b A B u : ℚ} (hu0 : 0 < u) (hu1 : u ≤ 1 / 3)
    (ha : 0 ≤ a) (hab : a ≤ b) (hb : 1 ≤ b)
    (hA : |A - a| ≤ a * u) (hB : |B - b| ≤ b * u) (hB1 : 1 ≤ B) :
    |A / B - a / b| ≤ 3 * u := by
  have hb0 : 0 < b := by linarith
  have hB0 : 0 < B := by linarith
  rw [abs_le] at hA hB
  obtain ⟨hA1, hA2⟩ := hA
  obtain ⟨hB1', hB2⟩ := hB
  rw [div_sub_div _ _ hB0.ne' hb0.ne', abs_div, abs_of_pos (mul_pos hB0 hb0),
    div_le_iff₀ (mul_pos hB0 hb0)]
  have h1 : (A - a) * b ≤ a * u * b := mul_le_mul_of_nonneg_right hA2 hb0.le
  have h2 : -(a * u) * b ≤ (A - a) * b := mul_le_mul_of_nonneg_right hA1 hb0.le
  have h3 : a * (B - b) ≤ a * (b * u) := mul_le_mul_of_nonneg_left hB2 ha
  have h4 : a * -(b * u) ≤ a * (B - b) := mul_le_mul_of_nonneg_left hB1' ha
  have hnum : |A * b - B * a| ≤ 2 * (a * b * u) := by
    rw [abs_le]
    constructor <;> nlinarith
  have hbb : a * b ≤ b * b := mul_le_mul_of_nonneg_right hab hb0.le
  have hbu : b * u ≤ b * (1 / 3) := mul_le_mul_of_nonneg_left hu1 hb0.le
  have h5 : 2 * b ≤ 3 * B := by linarith
  have h6 : 2 * (b * b) ≤ 3 * (B * b) := by
    have := mul_le_mul_of_nonneg_right h5 hb0.le
    linarith
  have h7 : 2 * (a * b) ≤ 3 * (B * b) := by linarith
  have h8 := mul_le_mul_of_nonneg_left h7 hu0.le
  linarith

theorem Dbl.mul_fin (a b : ℚ) : Dbl.mul (Dbl.fin a) (Dbl.fin b) = Dbl.round (a * b) := rfl

theorem Dbl.sub_fin (a b : ℚ) : Dbl.sub (Dbl.fin a) (Dbl.fin b) = Dbl.round (a - b) := rfl

theorem Dbl.div_fin (a b : ℚ) (hb : b ≠ 0) :
    Dbl.div (Dbl.fin a) (Dbl.fin b) = Dbl.round (a / b) := by
  simp [Dbl.div, hb]

/-- The `double` returned for a positive exact result of the binade of `2 ^ e`
that is closer than half a unit in the last place to `n * 2 ^ (e - 52)`. -/
theorem Dbl.round_of_binade {q : ℚ} {e n : Int} (r : ℚ) (h1 : (2 : ℚ) ^ e ≤ q)
    (h2 : q < (2 : ℚ) ^ (e + 1)) (he : -1022 ≤ e) (hn : |q / 2 ^ (e - 52) - n| < 1 / 2)
    (hr : (n : ℚ) * 2 ^ (e - 52) = r) (hfin : |r| < 2 ^ 1024) :
    Dbl.round q = Dbl.fin r := by
  have h := round_nearest_of_binade h1 h2 he hn
  rw [hr] at h
  rw [Dbl.round_of_lt (by rw [h]; exact hfin), h]

/-- The same for a negative exact result `-q`. -/
theorem Dbl.round_neg_of_binade {q : ℚ} {e n : Int} (r : ℚ) (h1 : (2 : ℚ) ^ e ≤ q)
    (h2 : q < (2 : ℚ) ^ (e + 1)) (he : -1022 ≤ e) (hn : |q / 2 ^ (e - 52) - n| < 1 / 2)
    (hr : (n : ℚ) * 2 ^ (e - 52) = r) (hfin : |r| < 2 ^ 1024) :
    Dbl.round (-q) = Dbl.fin (-r) := by
  have h := round_nearest_of_binade h1 h2 he hn
  rw [hr] at h
  rw [Dbl.round_of_lt (by rw [round_nearest_neg, h, abs_neg]; exact hfin), round_nearest_neg, h]

/-- The `double` returned for a positive exact result that lies half-way
between two neighbouring `double`s. -/
theorem Dbl.round_of_binade_tie {q : ℚ} {e n : Int} (r : ℚ) (h1 : (2 : ℚ) ^ e ≤ q)
    (h2 : q < (2 : ℚ) ^ (e + 1)) (he : -1022 ≤ e) (hn : q / 2 ^ (e - 52) = n + 1 / 2)
    (hr : ((if n % 2 = 0 then n else n + 1 : Int) : ℚ) * 2 ^ (e - 52) = r)
    (hfin : |r| < 2 ^ 1024) :
    Dbl.round q = Dbl.fin r := by
  have h := round_nearest_of_binade_tie h1 h2 he hn
  rw [hr] at h
  rw [Dbl.round_of_lt (by rw [h]; exact hfin), h]

/-! ## Properties of the CPU sampler -/

theorem usub64_of_le {a b : Nat} (hb : b ≤ a) (ha : a < ULLONG_MOD) : usub64 a b = a - b := by
  unfold usub64 ULLONG_MOD at *
  omega

theorem usub64_self_eq_zero (a : Nat) : usub64 a a = 0 := by
  unfold usub64 ULLONG_MOD
  omega

theorem cpu_total_of_lt {s : CounterSample} (h : s.sum < ULLONG_MOD) : cpu_total s = s.sum := by
  unfold cpu_total
  exact Nat.mod_eq_of_lt h

/-- The statics after a call that read a sample. -/
theorem get_cpu_usage_state (st : CpuState) (s : CounterSample) :
    (get_cpu_usage st (some s)).state = { prev_idle := s.idle, prev_total := cpu_total s } := by
  simp [get_cpu_usage]

/-- The value returned on the `diff_total > 0` branch. -/
theorem get_cpu_usage_ret_of_pos (st : CpuState) (s : CounterSample)
    (h : 0 < usub64 (cpu_total s) st.prev_total) :
    (get_cpu_usage st (some s)).ret =
      cpu_percent (usub64 s.idle st.prev_idle) (usub64 (cpu_total s) st.prev_total) := by
  simp [get_cpu_usage, h]

/-- The conversion of an `unsigned long long` is a finite `double` between 0
and `2 ^ 64`, at least 1 for a positive argument. -/
theorem Dbl.ofInt_natCast (n : Nat) (hn : n < 2 ^ 64) :
    Dbl.ofInt (n : Int) = Dbl.fin (round_nearest (n : ℚ)) ∧ 0 ≤ round_nearest (n : ℚ) ∧
      round_nearest (n : ℚ) ≤ 2 ^ 64 ∧ (0 < n → 1 ≤ round_nearest (n : ℚ)) := by
  have hq : (n : ℚ) ≤ 2 ^ 64 := by
    have h' : n ≤ 2 ^ 64 := hn.le
    exact_mod_cast h'
  have h := Dbl.round_between (l := 0) (u := 2 ^ 64) (q := (n : ℚ)) le_rfl
    (Nat.cast_nonneg n) hq round_nearest_zero round_nearest_two_pow_64 (by norm_num)
  refine ⟨?_, h.2.1, h.2.2, ?_⟩
  · unfold Dbl.ofInt
    simpa using h.1
  · intro hpos
    have h1 : (1 : ℚ) ≤ (n : ℚ) := by exact_mod_cast hpos
    have := round_nearest_mono (by norm_num) h1
    rwa [round_nearest_one] at this

/-- Line 37 in `double` arithmetic, for `diff_idle ≤ diff_total` and
`diff_total > 0`: the result is finite, inside `[0, 100]`, and within `2 ^ -43`
of `100 * (1 - diff_idle / diff_total)`. -/
theorem cpu_percent_range (di dt : Nat) (hle : di ≤ dt) (hpos : 0 < dt) (hdt : dt < 2 ^ 64) :
    ∃ q : ℚ, cpu_percent di dt = Dbl.fin q ∧ 0 ≤ q ∧ q ≤ 100 ∧
      |q - 100 * (1 - (di : ℚ) / (dt : ℚ))| ≤ 2 ^ (-43 : Int) := by
  obtain ⟨ha, ha0, -, -⟩ := Dbl.ofInt_natCast di (lt_of_le_of_lt hle hdt)
  obtain ⟨hb, -, -, hb1⟩ := Dbl.ofInt_natCast dt hdt
  have hb1 := hb1 hpos
  have hdiq : (0 : ℚ) ≤ (di : ℚ) := Nat.cast_nonneg di
  have hleq : (di : ℚ) ≤ (dt : ℚ) := by exact_mod_cast hle
  have hdtq : (1 : ℚ) ≤ (dt : ℚ) := by exact_mod_cast hpos
  have hab : round_nearest (di : ℚ) ≤ round_nearest (dt : ℚ) := round_nearest_mono hdiq hleq
  have hbpos : (0 : ℚ) < round_nearest (dt : ℚ) := lt_of_lt_of_le (by norm_num) hb1
  -- the quotient
  have hq := Dbl.round_between (l := 0) (u := 1)
    (q := round_nearest (di : ℚ) / round_nearest (dt : ℚ)) le_rfl
    (div_nonneg ha0 hbpos.le) ((div_le_one hbpos).mpr hab) round_nearest_zero round_nearest_one
    (by norm_num)
  have hEq := quotient_of_rounded_close (u := 2 ^ (-53 : Int)) (by norm_num) (by norm_num)
    hdiq hleq hdtq (round_nearest_natCast_error di) (round_nearest_natCast_error dt) hb1
  have hEc := round_nearest_error_below (k := 0) (div_nonneg ha0 hbpos.le)
    (lt_of_le_of_lt ((div_le_one hbpos).mpr hab) (by norm_num)) (by norm_num)
  set x' : ℚ := round_nearest (di : ℚ) / round_nearest (dt : ℚ) with hx'
  set c : ℚ := round_nearest x' with hc
  -- one minus the quotient
  have hs := Dbl.round_between (l := 0) (u := 1) (q := 1 - c) le_rfl
    (by linarith [hq.2.2]) (by linarith [hq.2.1]) round_nearest_zero round_nearest_one
    (by norm_num)
  have hEd := round_nearest_error_below (k := 0) (a := 1 - c) (by linarith [hq.2.2])
    (by norm_num; linarith [hq.2.1]) (by norm_num)
  set d : ℚ := round_nearest (1 - c) with hd
  -- times one hundred
  have hm := Dbl.round_between (l := 0) (u := 100) (q := 100 * d) le_rfl
    (by linarith [hs.2.1]) (by linarith [hs.2.2]) round_nearest_zero round_nearest_hundred
    (by norm_num)
  have hEr := round_nearest_error_below (k := 6) (a := 100 * d) (by linarith [hs.2.1])
    (by norm_num; linarith [hs.2.2]) (by norm_num)
  refine ⟨round_nearest (100 * d), ?_, hm.2.1, hm.2.2, ?_⟩
  · unfold cpu_percent
    rw [ha, hb]
    simp only [Dbl.div, hbpos.ne', if_false, hq.1, Dbl.sub, hs.1, Dbl.mul, hm.1]
  · have e53 : (2 : ℚ) ^ (-53 : Int) = 1 / 9007199254740992 := by norm_num
    have e053 : (2 : ℚ) ^ ((0 : Int) - 53) = 1 / 9007199254740992 := by norm_num
    have e47 : (2 : ℚ) ^ ((6 : Int) - 53) = 1 / 140737488355328 := by norm_num
    have e43 : (2 : ℚ) ^ (-43 : Int) = 1 / 8796093022208 := by norm_num
    rw [e53] at hEq
    rw [e053] at hEc hEd
    rw [e47] at hEr
    rw [e43]
    rw [abs_le] at hEq hEc hEd hEr ⊢
    constructor <;> linarith [hEq.1, hEq.2, hEc.1, hEc.2, hEd.1, hEd.2, hEr.1, hEr.2]

/-- C1. For two valid counter samples `prev` and `cur` (fields non-negative,
every field of `cur` at least the same field of `prev`, both seven-field sums
below `2 ^ 64`) with `diff_total = total - previous_total > 0`, the call of
`get_cpu_usage` that reads `cur` after a call that read `prev` returns the
percent of line 37 computed in `double` arithmetic from the true differences;
that value lies in `[0, 100]` and is within `2 ^ -43` of
`100 * (1 - diff_idle / diff_total)`. -/
theorem cpu_percent_in_range (st0 : CpuState) (prev cur : CounterSample)
    (hprev : prev.sum < ULLONG_MOD) (hcur : cur.sum < ULLONG_MOD)
    (huser : prev.user ≤ cur.user) (hnice : prev.nice ≤ cur.nice)
    (hsystem : prev.system ≤ cur.system) (hidle : prev.idle ≤ cur.idle)
    (hiowait : prev.iowait ≤ cur.iowait) (hirq : prev.irq ≤ cur.irq)
    (hsoftirq : prev.softirq ≤ cur.softirq)
    (hdiff : 0 < (cur.sum : Int) - (prev.sum : Int)) :
    ∃ q : ℚ,
      (get_cpu_usage (get_cpu_usage st0 (some prev)).state (some cur)).ret = Dbl.fin q ∧
      cpu_percent (cur.idle - prev.idle) (cur.sum - prev.sum) = Dbl.fin q ∧
      0 ≤ q ∧ q ≤ 100 ∧
      |q - 100 * (1 - ((cur.idle : ℚ) - prev.idle) / ((cur.sum : ℚ) - prev.sum))| ≤
        2 ^ (-43 : Int) := by
  have hlt : prev.sum < cur.sum := by omega
  have hidle_lt : cur.idle < ULLONG_MOD := by
    unfold CounterSample.sum at hcur; omega
  have hdi : usub64 cur.idle prev.idle = cur.idle - prev.idle := usub64_of_le hidle hidle_lt
  have hdt : usub64 (cpu_total cur) (cpu_total prev) = cur.sum - prev.sum := by
    rw [cpu_total_of_lt hcur, cpu_total_of_lt hprev]
    exact usub64_of_le hlt.le hcur
  have hpos : 0 < usub64 (cpu_total cur) (get_cpu_usage st0 (some prev)).state.prev_total := by
    rw [get_cpu_usage_state, hdt]; omega
  have hle : cur.idle - prev.idle ≤ cur.sum - prev.sum := by
    unfold CounterSample.sum at *; omega
  have hbound : cur.sum - prev.sum < 2 ^ 64 := by
    unfold ULLONG_MOD at hcur; omega
  obtain ⟨q, hq, h0, h100, hacc⟩ :=
    cpu_percent_range (cur.idle - prev.idle) (cur.sum - prev.sum) hle (by omega) hbound
  refine ⟨q, ?_, hq, h0, h100, ?_⟩
  · rw [get_cpu_usage_ret_of_pos _ _ hpos]
    simp only [get_cpu_usage_state, hdi, hdt]
    exact hq
  · rw [Nat.cast_sub hidle, Nat.cast_sub hlt.le] at hacc
    exact hacc

/-- Witness of C1: one tick of user time and one idle tick between two samples. -/
theorem cpu_percent_in_range_witness :
    ∃ q : ℚ,
      (get_cpu_usage (get_cpu_usage CpuState.initial (some sample_early)).state
        (some sample_late)).ret = Dbl.fin q ∧
      cpu_percent (sample_late.idle - sample_early.idle) (sample_late.sum - sample_early.sum) =
        Dbl.fin q ∧
      0 ≤ q ∧ q ≤ 100 ∧
      |q - 100 * (1 - ((sample_late.idle : ℚ) - sample_early.idle) /
        ((sample_late.sum : ℚ) - sample_early.sum))| ≤ 2 ^ (-43 : Int) :=
  cpu_percent_in_range CpuState.initial sample_early sample_late
    (by decide) (by decide) (by decide) (by decide) (by decide) (by decide) (by decide)
    (by decide) (by decide) (by decide)

/-- C2. For every stored state and every sample read whose total equals
`prev_total`, `get_cpu_usage` returns exactly 0 and evaluates no division at
all, whatever `idle` and `prev_idle` are. -/
theorem cpu_zero_when_total_unchanged (st : CpuState) (s : CounterSample)
    (h : cpu_total s = st.prev_total) :
    (get_cpu_usage st (some s)).ret = Dbl.fin 0 ∧
      (get_cpu_usage st (some s)).divisors = [] := by
  have h0 : usub64 (cpu_total s) st.prev_total = 0 := by
    rw [h]; exact usub64_self_eq_zero _
  simp [get_cpu_usage, h0]

/-- Witness of C2: the total stays at 20 while `idle` moves from 3 to 15. -/
theorem cpu_zero_when_total_unchanged_witness :
    (get_cpu_usage { prev_idle := 3, prev_total := 20 } (some sample_same_total)).ret
        = Dbl.fin 0 ∧
      (get_cpu_usage { prev_idle := 3, prev_total := 20 } (some sample_same_total)).divisors
        = [] :=
  cpu_zero_when_total_unchanged { prev_idle := 3, prev_total := 20 } sample_same_total
    (by decide)

/-- In a sequence of calls, the result at position `k + 1` is the result of one
call made from the statics the sample at position `k` leaves. -/
theorem cpu_run_pairwise (st : CpuState) (samples : List CounterSample) (k : Nat)
    (p c : CounterSample) (hp : samples[k]? = some p) (hc : samples[k + 1]? = some c) :
    (cpu_run st samples)[k + 1]? =
      some (get_cpu_usage { prev_idle := p.idle, prev_total := cpu_total p } (some c)).ret := by
  induction samples generalizing st k with
  | nil => simp at hp
  | cons s rest ih =>
    cases k with
    | zero =>
      cases rest with
      | nil => simp at hc
      | cons s2 rest2 =>
        simp at hp hc
        subst hp; subst hc
        simp [cpu_run, get_cpu_usage_state]
    | succ k =>
      simp at hp hc
      simpa [cpu_run] using ih _ k hp hc

/-- The value returned for a later sample when both sums are below `2 ^ 64`,
the total increased and `idle` did not decrease: line 37 in `double` arithmetic
on the true differences. -/
theorem get_cpu_usage_ret_of_increase (p c : CounterSample)
    (hp : p.sum < ULLONG_MOD) (hc : c.sum < ULLONG_MOD) (htotal : p.sum < c.sum)
    (hidle : p.idle ≤ c.idle) :
    (get_cpu_usage { prev_idle := p.idle, prev_total := cpu_total p } (some c)).ret =
      cpu_percent (c.idle - p.idle) (c.sum - p.sum) := by
  have hidle_lt : c.idle < ULLONG_MOD := by
    unfold CounterSample.sum at hc; omega
  have hdi : usub64 c.idle p.idle = c.idle - p.idle := usub64_of_le hidle hidle_lt
  have hdt : usub64 (cpu_total c) (cpu_total p) = c.sum - p.sum := by
    rw [cpu_total_of_lt hc, cpu_total_of_lt hp]
    exact usub64_of_le htotal.le hc
  have hpos : 0 < usub64 (cpu_total c)
      ({ prev_idle := p.idle, prev_total := cpu_total p } : CpuState).prev_total := by
    show 0 < usub64 (cpu_total c) (cpu_total p)
    rw [hdt]; omega
  rw [get_cpu_usage_ret_of_pos _ _ hpos]
  simp only [hdi, hdt]

/-- Line 37 on true differences with `diff_idle ≤ diff_total`: within `2 ^ -43`
of the exact percentage. -/
theorem cpu_percent_close (p c : CounterSample) (hc : c.sum < ULLONG_MOD)
    (htotal : p.sum < c.sum) (hidle : p.idle ≤ c.idle)
    (hle : c.idle - p.idle ≤ c.sum - p.sum) :
    ∃ q : ℚ, cpu_percent (c.idle - p.idle) (c.sum - p.sum) = Dbl.fin q ∧
      |q - 100 * (1 - ((c.idle : ℚ) - p.idle) / ((c.sum : ℚ) - p.sum))| ≤ 2 ^ (-43 : Int) := by
  have hbound : c.sum - p.sum < 2 ^ 64 := by
    unfold ULLONG_MOD at hc; omega
  obtain ⟨q, hq, -, -, hacc⟩ :=
    cpu_percent_range (c.idle - p.idle) (c.sum - p.sum) hle (by omega) hbound
  refine ⟨q, hq, ?_⟩
  rw [Nat.cast_sub hidle, Nat.cast_sub htotal.le] at hacc
  exact hacc

/-- Line 37 in `double` arithmetic for `diff_idle = 2 ^ 64 - 5`, `diff_total = 15`. -/
theorem cpu_percent_idle_drop :
    cpu_percent 18446744073709551611 15 = Dbl.fin (-122978293824730349568) := by
  have h1 : Dbl.ofInt ((18446744073709551611 : ℕ) : Int) = Dbl.fin 18446744073709551616 := by
    unfold Dbl.ofInt
    exact Dbl.round_of_binade (e := 63) (n := 9007199254740992) _ (by norm_num) (by norm_num)
      (by norm_num) (by norm_num [abs_lt]) (by norm_num) (by norm_num [abs_lt])
  have h2 : Dbl.ofInt ((15 : ℕ) : Int) = Dbl.fin 15 := by
    have := Dbl.ofInt_of_small 15 (by norm_num)
    simpa using this
  have h3 : Dbl.round ((18446744073709551616 : ℚ) / 15) = Dbl.fin 1229782938247303424 :=
    Dbl.round_of_binade (e := 60) (n := 4803839602528529) _ (by norm_num) (by norm_num)
      (by norm_num) (by norm_num [abs_lt]) (by norm_num) (by norm_num [abs_lt])
  have h4 : Dbl.round ((1 : ℚ) - 1229782938247303424) = Dbl.fin (-1229782938247303424) := by
    have e : (1 : ℚ) - 1229782938247303424 = -1229782938247303423 := by norm_num
    rw [e]
    exact Dbl.round_neg_of_binade (e := 60) (n := 4803839602528529) _ (by norm_num)
      (by norm_num) (by norm_num) (by norm_num [abs_lt]) (by norm_num) (by norm_num [abs_lt])
  have h5 : Dbl.round ((100 : ℚ) * -1229782938247303424) =
      Dbl.fin (-122978293824730349568) := by
    have e : (100 : ℚ) * -1229782938247303424 = -122978293824730342400 := by norm_num
    rw [e]
    exact Dbl.round_neg_of_binade (e := 66) (n := 7505999378950827) _ (by norm_num)
      (by norm_num) (by norm_num) (by norm_num [abs_lt]) (by norm_num) (by norm_num [abs_lt])
  unfold cpu_percent
  rw [h1, h2, Dbl.div_fin _ _ (by norm_num), h3, Dbl.sub_fin, h4, Dbl.mul_fin, h5]

/-- C3, as stated, fails: after a sample with 10 idle ticks (total 10), a sample
with 5 idle ticks and total 25 has `total_k > total_(k-1)`, yet the second
result is about `-1.23e20`, not `100 * (1 - (5 - 10) / (25 - 10))`: the
unsigned difference `idle - prev_idle` wraps around to `2 ^ 64 - 5`. -/
theorem cpu_formula_fails_when_idle_drops :
    sample_idle_high.sum < sample_idle_low.sum ∧
      (cpu_run CpuState.initial [sample_idle_high, sample_idle_low])[1]? =
        some (Dbl.fin (-122978293824730349568)) ∧
      (100 : ℚ) * (1 - ((sample_idle_low.idle : ℚ) - sample_idle_high.idle) /
          ((sample_idle_low.sum : ℚ) - sample_idle_high.sum)) = 400 / 3 ∧
      (cpu_run CpuState.initial [sample_idle_high, sample_idle_low])[1]? ≠
        some (Dbl.fin (100 * (1 - ((sample_idle_low.idle : ℚ) - sample_idle_high.idle) /
          ((sample_idle_low.sum : ℚ) - sample_idle_high.sum)))) := by
  have h : (cpu_run CpuState.initial [sample_idle_high, sample_idle_low])[1]? =
      some (Dbl.fin (-122978293824730349568)) := by
    rw [cpu_run_pairwise CpuState.initial [sample_idle_high, sample_idle_low] 0
      sample_idle_high sample_idle_low rfl rfl]
    have hpos : 0 < usub64 (cpu_total sample_idle_low)
        ({ prev_idle := sample_idle_high.idle,
           prev_total := cpu_total sample_idle_high } : CpuState).prev_total := by decide
    rw [get_cpu_usage_ret_of_pos _ _ hpos]
    have hdi : usub64 sample_idle_low.idle sample_idle_high.idle = 18446744073709551611 := by
      decide
    have hdt : usub64 (cpu_total sample_idle_low) (cpu_total sample_idle_high) = 15 := by
      decide
    simp only [hdi, hdt, cpu_percent_idle_drop]
  have hval : (100 : ℚ) * (1 - ((sample_idle_low.idle : ℚ) - sample_idle_high.idle) /
      ((sample_idle_low.sum : ℚ) - sample_idle_high.sum)) = 400 / 3 := by
    simp [sample_idle_high, sample_idle_low, CounterSample.sum]
    norm_num
  refine ⟨by decide, h, hval, ?_⟩
  rw [h, hval]
  norm_num

/-- The stored total is the seven-field sum only modulo `2 ^ 64`: a sample with
`user = 2 ^ 64 - 1` and `nice = 1` leaves `prev_total = 0`. -/
theorem cpu_total_wraps :
    (get_cpu_usage CpuState.initial (some sample_overflow)).state =
        { prev_idle := 0, prev_total := 0 } ∧
      sample_overflow.sum = 2 ^ 64 := by
  constructor
  · rw [get_cpu_usage_state]
    decide
  · decide

/-- C3, amended. Every call that reads a sample leaves the statics equal to
`(idle, total)` of that sample, `total` being the seven-field sum reduced modulo
`2 ^ 64`, on either branch. Hence in every sequence of reads the result at
position `k + 1` is a function of the samples at positions `k` and `k + 1`
alone; when both sums are below `2 ^ 64`, the total increased and `idle` did not
decrease, it is `100 * (1 - (idle_k+1 - idle_k) / (total_k+1 - total_k))` as
line 37 computes it in `double` arithmetic, which is within `2 ^ -43` of the
exact value whenever the increase of `idle` is at most that of the total. -/
theorem cpu_state_update_and_history (st : CpuState) (samples : List CounterSample) (k : Nat)
    (p c : CounterSample) (hp : samples[k]? = some p) (hc : samples[k + 1]? = some c) :
    (∀ (st1 : CpuState) (s : CounterSample),
      (get_cpu_usage st1 (some s)).state =
        { prev_idle := s.idle, prev_total := s.sum % ULLONG_MOD }) ∧
    (cpu_run st samples)[k + 1]? =
      some (get_cpu_usage { prev_idle := p.idle, prev_total := p.sum % ULLONG_MOD }
        (some c)).ret ∧
    (p.sum < ULLONG_MOD → c.sum < ULLONG_MOD → p.sum < c.sum → p.idle ≤ c.idle →
      (cpu_run st samples)[k + 1]? =
          some (cpu_percent (c.idle - p.idle) (c.sum - p.sum)) ∧
        (c.idle - p.idle ≤ c.sum - p.sum →
          ∃ q : ℚ, cpu_percent (c.idle - p.idle) (c.sum - p.sum) = Dbl.fin q ∧
            |q - 100 * (1 - ((c.idle : ℚ) - p.idle) / ((c.sum : ℚ) - p.sum))| ≤
              2 ^ (-43 : Int))) := by
  refine ⟨fun st1 s => get_cpu_usage_state st1 s, cpu_run_pairwise st samples k p c hp hc, ?_⟩
  intro h1 h2 h3 h4
  refine ⟨?_, fun hle => cpu_percent_close p c h2 h3 h4 hle⟩
  rw [cpu_run_pairwise st samples k p c hp hc, get_cpu_usage_ret_of_increase p c h1 h2 h3 h4]

/-- Witness of C3 (amended): the pair `sample_early`, `sample_late` read at
process start. -/
theorem cpu_state_update_and_history_witness :
    (cpu_run CpuState.initial [sample_early, sample_late])[1]? =
        some (cpu_percent (sample_late.idle - sample_early.idle)
          (sample_late.sum - sample_early.sum)) ∧
      (sample_late.idle - sample_early.idle ≤ sample_late.sum - sample_early.sum →
        ∃ q : ℚ, cpu_percent (sample_late.idle - sample_early.idle)
            (sample_late.sum - sample_early.sum) = Dbl.fin q ∧
          |q - 100 * (1 - ((sample_late.idle : ℚ) - sample_early.idle) /
            ((sample_late.sum : ℚ) - sample_early.sum))| ≤ 2 ^ (-43 : Int)) :=
  (cpu_state_update_and_history CpuState.initial [sample_early, sample_late] 0
    sample_early sample_late rfl rfl).2.2 (by decide) (by decide) (by decide) (by decide)

/-! ## Properties of the memory sampler -/

/-- C division by 1024 in terms of floor division. -/
theorem tdiv_1024_cases (v : Int) :
    (0 ≤ v ∧ v.tdiv 1024 = v / 1024) ∨ (v < 0 ∧ v.tdiv 1024 = -((-v) / 1024)) := by
  rcases le_or_lt 0 v with h | h
  · exact Or.inl ⟨h, Int.tdiv_eq_ediv h (by norm_num)⟩
  · refine Or.inr ⟨h, ?_⟩
    have h1 : (-v).tdiv 1024 = (-v) / 1024 := Int.tdiv_eq_ediv (by omega) (by norm_num)
    have h2 : (-v).tdiv 1024 = -(v.tdiv 1024) := Int.neg_tdiv v 1024
    omega

theorem store_long_range (v : Int) : LONG_MIN ≤ store_long v ∧ store_long v ≤ LONG_MAX := by
  unfold store_long LONG_MIN LONG_MAX
  omega

theorem store_long_of_range {v : Int} (h1 : LONG_MIN ≤ v) (h2 : v ≤ LONG_MAX) :
    store_long v = v := by
  unfold store_long LONG_MIN LONG_MAX at *
  omega

theorem sscanf_key_ld_range (key line : List Char) (var : Int)
    (h : LONG_MIN ≤ var ∧ var ≤ LONG_MAX) :
    LONG_MIN ≤ sscanf_key_ld key line var ∧ sscanf_key_ld key line var ≤ LONG_MAX := by
  unfold sscanf_key_ld
  split
  · exact h
  · split
    · exact h
    · exact store_long_range _

/-- The values the scan loop leaves in `mem_total` and `mem_available` are
values of `long`. -/
theorem meminfo_fold_range (lines : List (List Char)) (f : MemFields)
    (ht : LONG_MIN ≤ f.mem_total ∧ f.mem_total ≤ LONG_MAX)
    (ha : LONG_MIN ≤ f.mem_available ∧ f.mem_available ≤ LONG_MAX) :
    (LONG_MIN ≤ (lines.foldl meminfo_scan_line f).mem_total ∧
      (lines.foldl meminfo_scan_line f).mem_total ≤ LONG_MAX) ∧
    (LONG_MIN ≤ (lines.foldl meminfo_scan_line f).mem_available ∧
      (lines.foldl meminfo_scan_line f).mem_available ≤ LONG_MAX) := by
  induction lines generalizing f with
  | nil => exact ⟨ht, ha⟩
  | cons l rest ih =>
    simp only [List.foldl_cons]
    apply ih
    · exact sscanf_key_ld_range _ _ _ ht
    · exact sscanf_key_ld_range _ _ _ ha

theorem meminfo_scan_range (content : List Char) :
    (LONG_MIN ≤ (meminfo_scan content).mem_total ∧
      (meminfo_scan content).mem_total ≤ LONG_MAX) ∧
    (LONG_MIN ≤ (meminfo_scan content).mem_available ∧
      (meminfo_scan content).mem_available ≤ LONG_MAX) := by
  unfold meminfo_scan
  apply meminfo_fold_range <;> simp [MemFields.zero, LONG_MIN, LONG_MAX]

/-- The subtraction of line 65 never leaves the range of `long`. -/
theorem used_mb_no_overflow {t a : Int} (ht : LONG_MIN ≤ t ∧ t ≤ LONG_MAX)
    (ha : LONG_MIN ≤ a ∧ a ≤ LONG_MAX) :
    wrap_long (t.tdiv 1024 - a.tdiv 1024) = t.tdiv 1024 - a.tdiv 1024 := by
  unfold wrap_long
  unfold LONG_MIN LONG_MAX at ht ha
  rcases tdiv_1024_cases t with ⟨h1, h2⟩ | ⟨h1, h2⟩ <;>
    rcases tdiv_1024_cases a with ⟨h3, h4⟩ | ⟨h3, h4⟩ <;>
    rw [h2, h4] <;> omega

/-- The out-parameters after a call that could open the file, in terms of the
scanned fields. -/
theorem get_memory_info_out (content : List Char) (out : MemOut) :
    (get_memory_info (some content) out).out =
      { used_percent :=
          memory_percent ((meminfo_scan content).mem_total.tdiv 1024 -
            (meminfo_scan content).mem_available.tdiv 1024)
            ((meminfo_scan content).mem_total.tdiv 1024)
        total_mb := (meminfo_scan content).mem_total.tdiv 1024
        used_mb := (meminfo_scan content).mem_total.tdiv 1024 -
          (meminfo_scan content).mem_available.tdiv 1024 } := by
  have h := meminfo_scan_range content
  simp only [get_memory_info, used_mb_no_overflow h.1 h.2]

/-! ### Text files read line by line -/

theorem match_literal_sound (key s r : List Char) (h : match_literal key s = some r) :
    s = key ++ r := by
  induction key generalizing s with
  | nil =>
    cases s <;> simp [match_literal] at h <;> simp [h]
  | cons k ks ih =>
    cases s with
    | nil => simp [match_literal] at h
    | cons c cs =>
      simp only [match_literal] at h
      split at h
      · rename_i hkc
        rw [hkc, ih cs h]
        rfl
      · exact absurd h (by simp)

/-- A text file of plain lines is read back by `fgets` line by line. -/
theorem fgets_lines_text_of_lines (ls : List (List Char)) (h : ∀ l ∈ ls, plain_line l) :
    fgets_lines (text_of_lines ls) = ls.map (fun l => l ++ [Char.ofNat 10]) := by
  unfold fgets_lines
  induction ls with
  | nil => simp [text_of_lines, fgets_from]
  | cons l rest ih =>
    have hl := h l (List.mem_cons_self _ _)
    have hrest : ∀ l ∈ rest, plain_line l := fun x hx => h x (List.mem_cons_of_mem _ hx)
    simp only [text_of_lines, List.map_cons]
    rw [fgets_from_line l _ [] hl.1 (by have := hl.2.2; simp; omega), ih hrest]
    simp

theorem c_str_plain_line (l : List Char) (hl : plain_line l) :
    c_str (l ++ [Char.ofNat 10]) = l ++ [Char.ofNat 10] := by
  rw [c_str_append _ _ hl.2.1]
  congr 1

/-- A `sscanf` call for a key leaves its variable alone on a plain line that
does not start with the key. -/
theorem sscanf_key_ld_of_other_line (key l : List Char) (var : Int)
    (hkey : ∀ c ∈ key, c.toNat ≠ 10) (hl : plain_line l) (hns : ¬ line_starts_with key l) :
    sscanf_key_ld key (l ++ [Char.ofNat 10]) var = var := by
  unfold sscanf_key_ld
  rw [c_str_plain_line l hl]
  cases hm : match_literal key (l ++ [Char.ofNat 10]) with
  | none => rfl
  | some r =>
    exfalso
    have hs := match_literal_sound _ _ _ hm
    apply hns
    rcases List.eq_nil_or_concat r with hr | ⟨r', x, hr⟩
    · subst hr
      rw [List.append_nil] at hs
      have hmem : Char.ofNat 10 ∈ key := by
        rw [← hs]
        simp
      exact absurd (by decide : (Char.ofNat 10).toNat = 10) (hkey _ hmem)
    · subst hr
      rw [List.concat_eq_append, ← List.append_assoc] at hs
      have := List.append_inj_left' hs rfl
      exact ⟨r', this⟩

/-- A `sscanf` call for a key on a plain line that gives `v` for that key
stores `v` converted to `long`. -/
theorem sscanf_key_ld_of_giving_line (key l : List Char) (v var : Int)
    (hkey : ∀ c ∈ key, (c != NUL) = true) (hg : line_gives key v l) :
    sscanf_key_ld key (l ++ [Char.ofNat 10]) var = store_long v := by
  obtain ⟨ws, rest, hl, hws, hrest⟩ := hg
  have e : l ++ [Char.ofNat 10] = key ++ (ws ++ (int_text v ++ (rest ++ [Char.ofNat 10]))) := by
    rw [hl]
    simp
  rw [e]
  apply sscanf_key_ld_of_text key ws _ v var hkey hws
  intro c hc
  cases rest with
  | nil =>
    simp only [List.nil_append, List.head?_cons, Option.some.injEq] at hc
    subst hc
    decide
  | cons r rs =>
    apply hrest c
    simpa using hc

/-- Lines that do not start with the key leave the variable of that key alone. -/
theorem foldl_sscanf_of_other_lines (key : List Char) (ls : List (List Char)) (x : Int)
    (hkeynl : ∀ c ∈ key, c.toNat ≠ 10) (hplain : ∀ l ∈ ls, plain_line l)
    (hns : ∀ l ∈ ls, ¬ line_starts_with key l) :
    (ls.map (fun l => l ++ [Char.ofNat 10])).foldl (fun x l => sscanf_key_ld key l x) x = x := by
  induction ls with
  | nil => rfl
  | cons a rest ih =>
    simp only [List.map_cons, List.foldl_cons]
    rw [sscanf_key_ld_of_other_line key a _ hkeynl (hplain a (List.mem_cons_self _ _))
      (hns a (List.mem_cons_self _ _))]
    exact ih (fun l hl => hplain l (List.mem_cons_of_mem _ hl))
      (fun l hl => hns l (List.mem_cons_of_mem _ hl))

/-- Over a file in which the last line starting with the key gives `v`, the
scan loop leaves `v`, converted to `long`, in the variable of that key. -/
theorem foldl_sscanf_of_file_gives (key : List Char) (v : Int) (content : List Char)
    (hkey : ∀ c ∈ key, (c != NUL) = true) (hkeynl : ∀ c ∈ key, c.toNat ≠ 10)
    (h : file_gives key v content) (init : Int) :
    (fgets_lines content).foldl (fun x l => sscanf_key_ld key l x) init = store_long v := by
  obtain ⟨before, line, after, hc, hplain, hg, hafter⟩ := h
  rw [hc, fgets_lines_text_of_lines _ hplain]
  simp only [List.map_append, List.map_cons, List.foldl_append, List.foldl_cons]
  rw [sscanf_key_ld_of_giving_line key line v _ hkey hg]
  exact foldl_sscanf_of_other_lines key after _ hkeynl
    (fun l hl => hplain l (List.mem_append_right _ (List.mem_cons_of_mem _ hl))) hafter

theorem meminfo_fold_mem_total (lines : List (List Char)) (f : MemFields) :
    (lines.foldl meminfo_scan_line f).mem_total =
      lines.foldl (fun x l => sscanf_key_ld "MemTotal:".toList l x) f.mem_total := by
  induction lines generalizing f with
  | nil => rfl
  | cons l rest ih =>
    simp only [List.foldl_cons]
    rw [ih]
    rfl

theorem meminfo_fold_mem_available (lines : List (List Char)) (f : MemFields) :
    (lines.foldl meminfo_scan_line f).mem_available =
      lines.foldl (fun x l => sscanf_key_ld "MemAvailable:".toList l x) f.mem_available := by
  induction lines generalizing f with
  | nil => rfl
  | cons l rest ih =>
    simp only [List.foldl_cons]
    rw [ih]
    rfl

/-- What the scan loop reads from a memory-info file whose `MemTotal` line gives
`T` and whose `MemAvailable` line gives `A`: the two numbers, converted to `long`. -/
theorem meminfo_scan_of_file_gives (content : List Char) (T A : Int)
    (hT : file_gives "MemTotal:".toList T content)
    (hA : file_gives "MemAvailable:".toList A content) :
    (meminfo_scan content).mem_total = store_long T ∧
      (meminfo_scan content).mem_available = store_long A := by
  unfold meminfo_scan
  rw [meminfo_fold_mem_total, meminfo_fold_mem_available]
  exact ⟨foldl_sscanf_of_file_gives _ T content (by decide) (by decide) hT _,
    foldl_sscanf_of_file_gives _ A content (by decide) (by decide) hA _⟩

/-- The reading for a memory-info file whose `MemTotal` line gives `T` and whose
`MemAvailable` line gives `A`, both within `long`. -/
theorem get_memory_info_of_file_gives (content : List Char) (out : MemOut) (T A : Int)
    (hT : file_gives "MemTotal:".toList T content)
    (hA : file_gives "MemAvailable:".toList A content)
    (hTmin : LONG_MIN ≤ T) (hTmax : T ≤ LONG_MAX) (hAmin : LONG_MIN ≤ A) (hAmax : A ≤ LONG_MAX) :
    (get_memory_info (some content) out).out =
      { used_percent := memory_percent (T.tdiv 1024 - A.tdiv 1024) (T.tdiv 1024)
        total_mb := T.tdiv 1024
        used_mb := T.tdiv 1024 - A.tdiv 1024 } := by
  obtain ⟨h1, h2⟩ := meminfo_scan_of_file_gives content T A hT hA
  rw [get_memory_info_out, h1, h2, store_long_of_range hTmin hTmax,
    store_long_of_range hAmin hAmax]

/-- A way to show what a concrete file gives for a key: its lines, the line
`<key> <digits> kB`, and no later line matching the key. -/
theorem file_gives_of_lines (key : List Char) (v : Int) (digits : List Char)
    (before after : List (List Char)) (content : List Char) (hv : int_text v = digits)
    (hcontent : content =
      text_of_lines (before ++ (key ++ (Char.ofNat 32 :: (digits ++ " kB".toList))) :: after))
    (hplain : ∀ l ∈ before ++ (key ++ (Char.ofNat 32 :: (digits ++ " kB".toList))) :: after,
      plain_line l)
    (hafter : ∀ l ∈ after, match_literal key l = none) :
    file_gives key v content := by
  refine ⟨before, _, after, hcontent, hplain, ⟨[Char.ofNat 32], " kB".toList, ?_, ?_, ?_⟩, ?_⟩
  · rw [hv]
    rfl
  · decide
  · intro c hc
    have : c = Char.ofNat 32 := by
      have h : " kB".toList.head? = some (Char.ofNat 32) := by decide
      rw [h] at hc
      exact (Option.some.inj hc).symm
    subst this
    decide
  · rintro l hl ⟨rest, hrest⟩
    have := hafter l hl
    rw [hrest, match_literal_append] at this
    exact absurd this (by simp)

theorem int_text_16384000 : int_text 16384000 = "16384000".toList := by
  norm_num [int_text, decimal_text, digit_char]

theorem int_text_8192000 : int_text 8192000 = "8192000".toList := by
  norm_num [int_text, decimal_text, digit_char]

theorem int_text_3072 : int_text 3072 = "3072".toList := by
  norm_num [int_text, decimal_text, digit_char]

theorem int_text_2048 : int_text 2048 = "2048".toList := by
  norm_num [int_text, decimal_text, digit_char]

theorem int_text_0 : int_text 0 = "0".toList := by
  norm_num [int_text, decimal_text, digit_char]

theorem int_text_two_pow_63 : int_text 9223372036854775808 = "9223372036854775808".toList := by
  norm_num [int_text, decimal_text, digit_char]

theorem int_text_huge : int_text 368934881474194432 = "368934881474194432".toList := by
  norm_num [int_text, decimal_text, digit_char]

theorem meminfo_example_gives :
    file_gives "MemTotal:".toList 16384000 meminfo_example ∧
      file_gives "MemAvailable:".toList 8192000 meminfo_example :=
  ⟨file_gives_of_lines _ _ _ [] ["MemAvailable: 8192000 kB".toList] _ int_text_16384000
      (by decide) (by decide) (by decide),
    file_gives_of_lines _ _ _ ["MemTotal: 16384000 kB".toList] [] _ int_text_8192000
      (by decide) (by decide) (by decide)⟩

theorem meminfo_one_third_gives :
    file_gives "MemTotal:".toList 3072 meminfo_one_third ∧
      file_gives "MemAvailable:".toList 2048 meminfo_one_third :=
  ⟨file_gives_of_lines _ _ _ [] ["MemAvailable: 2048 kB".toList] _ int_text_3072
      (by decide) (by decide) (by decide),
    file_gives_of_lines _ _ _ ["MemTotal: 3072 kB".toList] [] _ int_text_2048
      (by decide) (by decide) (by decide)⟩

theorem meminfo_beyond_long_gives :
    file_gives "MemTotal:".toList 9223372036854775808 meminfo_beyond_long ∧
      file_gives "MemAvailable:".toList 0 meminfo_beyond_long :=
  ⟨file_gives_of_lines _ _ _ [] ["MemAvailable: 0 kB".toList] _ int_text_two_pow_63
      (by decide) (by decide) (by decide),
    file_gives_of_lines _ _ _ ["MemTotal: 9223372036854775808 kB".toList] [] _ int_text_0
      (by decide) (by decide) (by decide)⟩

theorem meminfo_huge_gives :
    file_gives "MemTotal:".toList 368934881474194432 meminfo_huge ∧
      file_gives "MemAvailable:".toList 0 meminfo_huge :=
  ⟨file_gives_of_lines _ _ _ [] ["MemAvailable: 0 kB".toList] _ int_text_huge
      (by decide) (by decide) (by decide),
    file_gives_of_lines _ _ _ ["MemTotal: 368934881474194432 kB".toList] [] _ int_text_0
      (by decide) (by decide) (by decide)⟩

/-! ### Line 66 in `double` arithmetic -/

theorem abs_round_nearest (q : ℚ) : |round_nearest q| = round_nearest |q| := by
  rcases le_or_lt 0 q with h | h
  · rw [abs_of_nonneg h, abs_of_nonneg (round_nearest_nonneg h)]
  · have hn : 0 ≤ -q := by linarith
    have h1 : round_nearest q = -round_nearest (-q) := by
      rw [round_nearest_neg, neg_neg]
    rw [abs_of_neg h, h1, abs_neg, abs_of_nonneg (round_nearest_nonneg hn)]

/-- Line 66 when `used_mb * 100` converts exactly: the percentage is the
`double` nearest to `used_mb * 100 / total_mb`, within the fraction `2 ^ -53`
of it. -/
theorem memory_percent_of_small (u t : Int) (hu : |u| * 100 < 2 ^ 53) (ht0 : 0 < t)
    (ht : t < 2 ^ 53) :
    memory_percent u t = Dbl.fin (round_nearest ((u : ℚ) * 100 / t)) ∧
      |round_nearest ((u : ℚ) * 100 / t) - (u : ℚ) * 100 / t| ≤
        |(u : ℚ) * 100 / t| * 2 ^ (-53 : Int) := by
  have hu' : |u| < 2 ^ 53 := by
    have : 0 ≤ |u| := abs_nonneg u
    omega
  have hu100 : |u * 100| < 2 ^ 53 := by
    rw [abs_mul]
    simpa using hu
  have htq : (0 : ℚ) < (t : ℚ) := by exact_mod_cast ht0
  have ht1 : (1 : ℚ) ≤ (t : ℚ) := by exact_mod_cast ht0
  have h1 : Dbl.ofInt u = Dbl.fin u := Dbl.ofInt_of_small u hu'
  have h2 : Dbl.round ((u : ℚ) * 100) = Dbl.fin ((u : ℚ) * 100) := by
    have := Dbl.round_intCast (u * 100) hu100
    simpa using this
  have h3 : Dbl.ofInt t = Dbl.fin t :=
    Dbl.ofInt_of_small t (by rw [abs_of_pos ht0]; exact ht)
  -- the magnitude of the quotient
  have hnum : |(u : ℚ) * 100| ≤ 9007199254740991 := by
    have h : |u * 100| ≤ 9007199254740991 := by
      have : (2 : Int) ^ 53 = 9007199254740992 := by norm_num
      omega
    have : ((|u * 100| : Int) : ℚ) ≤ ((9007199254740991 : Int) : ℚ) := by exact_mod_cast h
    simpa using this
  have hx : |(u : ℚ) * 100 / t| ≤ 9007199254740991 := by
    rw [abs_div, abs_of_pos htq]
    calc |(u : ℚ) * 100| / t ≤ |(u : ℚ) * 100| / 1 :=
          div_le_div_of_nonneg_left (abs_nonneg _) (by norm_num) ht1
      _ = |(u : ℚ) * 100| := by simp
      _ ≤ _ := hnum
  have hfin : |round_nearest ((u : ℚ) * 100 / t)| < 2 ^ 1024 := by
    rw [abs_round_nearest]
    have hm := round_nearest_mono (abs_nonneg _) hx
    have hr : round_nearest (9007199254740991 : ℚ) = 9007199254740991 := by
      have := round_nearest_intCast 9007199254740991 (by norm_num)
      simpa using this
    rw [hr] at hm
    exact lt_of_le_of_lt hm (by norm_num)
  constructor
  · unfold memory_percent
    rw [h1, Dbl.mul_fin, h2, h3, Dbl.div_fin _ _ htq.ne', Dbl.round_of_lt hfin]
  · rcases eq_or_ne u 0 with h0 | h0
    · subst h0
      simp [round_nearest_zero]
    · apply round_nearest_error
      have hu1 : (1 : ℚ) ≤ |(u : ℚ)| := by
        have : 1 ≤ |u| := Int.one_le_abs h0
        have : ((1 : Int) : ℚ) ≤ ((|u| : Int) : ℚ) := by exact_mod_cast this
        simpa using this
      have htle : (t : ℚ) ≤ 2 ^ 53 := by
        have : t ≤ 2 ^ 53 := ht.le
        exact_mod_cast this
      rw [abs_div, abs_mul, abs_of_pos htq]
      have h100 : |(100 : ℚ)| = 100 := by norm_num
      rw [h100, le_div_iff₀ htq]
      have hs : (2 : ℚ) ^ (-1022 : Int) * 2 ^ 53 ≤ 1 := by
        have : (2 : ℚ) ^ (-1022 : Int) * 2 ^ (53 : Int) = 2 ^ (-969 : Int) := by
          rw [← zpow_add₀ (by norm_num : (2 : ℚ) ≠ 0)]
          norm_num
        have h53 : (2 : ℚ) ^ (53 : ℕ) = (2 : ℚ) ^ (53 : Int) := by norm_num
        rw [h53, this]
        exact zpow_le_one_of_nonpos₀ (by norm_num) (by norm_num)
      calc (2 : ℚ) ^ (-1022 : Int) * t ≤ 2 ^ (-1022 : Int) * 2 ^ 53 :=
            mul_le_mul_of_nonneg_left htle (zpow_pos (by norm_num) _).le
        _ ≤ 1 := hs
        _ ≤ |(u : ℚ)| * 100 := by linarith

theorem memory_percent_example : memory_percent 8000 16000 = Dbl.fin 50 := by
  have h := (memory_percent_of_small 8000 16000 (by norm_num) (by norm_num) (by norm_num)).1
  rw [h]
  have e : (((8000 : Int) : ℚ) * 100 / ((16000 : Int) : ℚ)) = ((50 : Int) : ℚ) := by norm_num
  rw [e, round_nearest_intCast 50 (by norm_num)]
  norm_num

/-- For 1 MB used out of 3 the percentage is the `double` next to `100 / 3`,
`33.333333333333336`. -/
theorem memory_percent_one_third :
    memory_percent 1 3 = Dbl.fin (4691249611844267 / 140737488355328) := by
  have h := (memory_percent_of_small 1 3 (by norm_num) (by norm_num) (by norm_num)).1
  rw [h]
  have e : (((1 : Int) : ℚ) * 100 / ((3 : Int) : ℚ)) = 100 / 3 := by norm_num
  rw [e, round_nearest_of_binade (e := 5) (n := 4691249611844267) (by norm_num) (by norm_num)
    (by norm_num) (by norm_num [abs_lt])]
  norm_num

/-- For 360287970189643 MB used out of as many, `used_mb * 100.0` rounds up and
the percentage is the `double` after 100, `100.00000000000001`. -/
theorem memory_percent_huge :
    memory_percent 360287970189643 360287970189643 =
      Dbl.fin (100 + 1 / 70368744177664) := by
  have h1 : Dbl.ofInt 360287970189643 = Dbl.fin 360287970189643 := by
    have := Dbl.ofInt_of_small 360287970189643 (by norm_num)
    simpa using this
  have h2 : Dbl.round ((360287970189643 : ℚ) * 100) = Dbl.fin 36028797018964304 := by
    have e : (360287970189643 : ℚ) * 100 = 36028797018964300 := by norm_num
    rw [e]
    exact Dbl.round_of_binade_tie (e := 55) (n := 4503599627370537) _ (by norm_num)
      (by norm_num) (by norm_num) (by norm_num) (by norm_num) (by norm_num [abs_lt])
  have h3 : Dbl.round ((36028797018964304 : ℚ) / 360287970189643) =
      Dbl.fin (100 + 1 / 70368744177664) :=
    Dbl.round_of_binade (e := 6) (n := 7036874417766401) _ (by norm_num) (by norm_num)
      (by norm_num) (by norm_num [abs_lt]) (by norm_num) (by norm_num [abs_lt])
  unfold memory_percent
  rw [h1, Dbl.mul_fin, h2, Dbl.div_fin _ _ (by norm_num), h3]

/-! ### The claims on the memory sampler -/

/-- C4, as stated, fails in two ways. For the file `MemTotal: 3072 kB`,
`MemAvailable: 2048 kB` the reading is `total_mb = 3`, `used_mb = 1`, and
`used_percent` is the `double` `33.333333333333336`, not `1 * 100 / 3`. For a
`MemTotal` of `2 ^ 63` kB, which no `long` holds, `total_mb` is `2 ^ 53 - 1`,
not `2 ^ 63 / 1024`. -/
theorem memory_formula_fails_by_rounding_and_range :
    (file_gives "MemTotal:".toList 3072 meminfo_one_third ∧
      file_gives "MemAvailable:".toList 2048 meminfo_one_third ∧
      0 < (3072 : Int).tdiv 1024 ∧
      (get_memory_info (some meminfo_one_third) stack_garbage).out =
        { used_percent := Dbl.fin (4691249611844267 / 140737488355328), total_mb := 3,
          used_mb := 1 } ∧
      (get_memory_info (some meminfo_one_third) stack_garbage).out.used_percent ≠
        Dbl.fin (((1 : Int) : ℚ) * 100 / ((3 : Int) : ℚ))) ∧
    (file_gives "MemTotal:".toList 9223372036854775808 meminfo_beyond_long ∧
      file_gives "MemAvailable:".toList 0 meminfo_beyond_long ∧
      0 < (9223372036854775808 : Int).tdiv 1024 ∧
      (get_memory_info (some meminfo_beyond_long) stack_garbage).out.total_mb =
        9007199254740991 ∧
      (get_memory_info (some meminfo_beyond_long) stack_garbage).out.total_mb ≠
        (9223372036854775808 : Int).tdiv 1024) := by
  have hout : (get_memory_info (some meminfo_one_third) stack_garbage).out =
      { used_percent := Dbl.fin (4691249611844267 / 140737488355328), total_mb := 3,
        used_mb := 1 } := by
    rw [get_memory_info_of_file_gives _ _ 3072 2048 meminfo_one_third_gives.1
      meminfo_one_third_gives.2 (by decide) (by decide) (by decide) (by decide)]
    have h1 : (3072 : Int).tdiv 1024 = 3 := by decide
    have h2 : (2048 : Int).tdiv 1024 = 2 := by decide
    rw [h1, h2]
    have h3 : (3 : Int) - 2 = 1 := by decide
    rw [h3, memory_percent_one_third]
  have hbig : (get_memory_info (some meminfo_beyond_long) stack_garbage).out.total_mb =
      9007199254740991 := by
    rw [get_memory_info_out]
    have hs : (meminfo_scan meminfo_beyond_long).mem_total = 9223372036854775807 := by decide
    simp only [hs]
    decide
  refine ⟨⟨meminfo_one_third_gives.1, meminfo_one_third_gives.2, by decide, hout, ?_⟩,
    meminfo_beyond_long_gives.1, meminfo_beyond_long_gives.2, by decide, hbig, ?_⟩
  · rw [hout]
    norm_num
  · rw [hbig]
    decide

/-- C4, amended. For every memory-info content of plain lines whose `MemTotal`
line gives `T` kB and whose `MemAvailable` line gives `A` kB, `T` and `A` being
values of `long` and `T / 1024 > 0`, `get_memory_info` returns
`total_mb = T / 1024`, `used_mb = T / 1024 - A / 1024` (C integer divisions)
and `used_percent = used_mb * 100.0 / total_mb` computed in `double`
arithmetic; when `|used_mb| * 100 < 2 ^ 53` that is the `double` nearest to
`used_mb * 100 / total_mb`, within the fraction `2 ^ -53` of it. For
`MemTotal: 16384000 kB` and `MemAvailable: 8192000 kB` the reading is 16000,
8000 and exactly 50.0. -/
theorem memory_reading_formula (content : List Char) (out : MemOut) (T A : Int)
    (hT : file_gives "MemTotal:".toList T content)
    (hA : file_gives "MemAvailable:".toList A content)
    (hTmin : LONG_MIN ≤ T) (hTmax : T ≤ LONG_MAX) (hAmin : LONG_MIN ≤ A) (hAmax : A ≤ LONG_MAX)
    (hpos : 0 < T.tdiv 1024) :
    ((get_memory_info (some content) out).out.total_mb = T.tdiv 1024 ∧
      (get_memory_info (some content) out).out.used_mb = T.tdiv 1024 - A.tdiv 1024 ∧
      (get_memory_info (some content) out).out.used_percent =
        memory_percent (T.tdiv 1024 - A.tdiv 1024) (T.tdiv 1024) ∧
      (|T.tdiv 1024 - A.tdiv 1024| * 100 < 2 ^ 53 →
        ∃ q : ℚ, (get_memory_info (some content) out).out.used_percent = Dbl.fin q ∧
          q = round_nearest (((T.tdiv 1024 - A.tdiv 1024 : Int) : ℚ) * 100 /
            ((T.tdiv 1024 : Int) : ℚ)) ∧
          |q - ((T.tdiv 1024 - A.tdiv 1024 : Int) : ℚ) * 100 / ((T.tdiv 1024 : Int) : ℚ)| ≤
            |((T.tdiv 1024 - A.tdiv 1024 : Int) : ℚ) * 100 / ((T.tdiv 1024 : Int) : ℚ)| *
              2 ^ (-53 : Int))) ∧
    (get_memory_info (some meminfo_example) out).out =
      { used_percent := Dbl.fin 50, total_mb := 16000, used_mb := 8000 } := by
  have hout := get_memory_info_of_file_gives content out T A hT hA hTmin hTmax hAmin hAmax
  have ht53 : T.tdiv 1024 < 2 ^ 53 := by
    unfold LONG_MAX at hTmax
    rcases tdiv_1024_cases T with ⟨h1, h2⟩ | ⟨h1, h2⟩ <;> rw [h2] <;> omega
  refine ⟨⟨by rw [hout], by rw [hout], by rw [hout], ?_⟩, ?_⟩
  · intro hsmall
    obtain ⟨h1, h2⟩ := memory_percent_of_small _ _ hsmall hpos ht53
    exact ⟨_, by rw [hout]; exact h1, rfl, h2⟩
  · rw [get_memory_info_of_file_gives _ _ 16384000 8192000 meminfo_example_gives.1
      meminfo_example_gives.2 (by decide) (by decide) (by decide) (by decide)]
    have h1 : (16384000 : Int).tdiv 1024 = 16000 := by decide
    have h2 : (8192000 : Int).tdiv 1024 = 8000 := by decide
    rw [h1, h2]
    have h3 : (16000 : Int) - 8000 = 8000 := by decide
    rw [h3, memory_percent_example]

/-- Witness of C4 (amended): the file of the example. -/
theorem memory_reading_formula_witness :
    ((get_memory_info (some meminfo_example) stack_garbage).out.total_mb =
        (16384000 : Int).tdiv 1024 ∧
      (get_memory_info (some meminfo_example) stack_garbage).out.used_mb =
        (16384000 : Int).tdiv 1024 - (8192000 : Int).tdiv 1024 ∧
      (get_memory_info (some meminfo_example) stack_garbage).out.used_percent =
        memory_percent ((16384000 : Int).tdiv 1024 - (8192000 : Int).tdiv 1024)
          ((16384000 : Int).tdiv 1024) ∧
      (|(16384000 : Int).tdiv 1024 - (8192000 : Int).tdiv 1024| * 100 < 2 ^ 53 →
        ∃ q : ℚ, (get_memory_info (some meminfo_example) stack_garbage).out.used_percent =
            Dbl.fin q ∧
          q = round_nearest ((((16384000 : Int).tdiv 1024 - (8192000 : Int).tdiv 1024 : Int) : ℚ)
            * 100 / (((16384000 : Int).tdiv 1024 : Int) : ℚ)) ∧
          |q - (((16384000 : Int).tdiv 1024 - (8192000 : Int).tdiv 1024 : Int) : ℚ) * 100 /
              (((16384000 : Int).tdiv 1024 : Int) : ℚ)| ≤
            |(((16384000 : Int).tdiv 1024 - (8192000 : Int).tdiv 1024 : Int) : ℚ) * 100 /
              (((16384000 : Int).tdiv 1024 : Int) : ℚ)| * 2 ^ (-53 : Int))) ∧
    (get_memory_info (some meminfo_example) stack_garbage).out =
      { used_percent := Dbl.fin 50, total_mb := 16000, used_mb := 8000 } :=
  memory_reading_formula meminfo_example stack_garbage 16384000 8192000
    meminfo_example_gives.1 meminfo_example_gives.2 (by decide) (by decide) (by decide)
    (by decide) (by decide)

/-- Whenever `total_mb` is 0 for a file that could be opened, line 66 divides
by zero and `used_percent` is not a finite number. -/
theorem get_memory_info_total_zero (content : List Char) (out : MemOut)
    (h : (meminfo_scan content).mem_total.tdiv 1024 = 0) :
    (get_memory_info (some content) out).out.total_mb = 0 ∧
      (0 : Int) ∈ (get_memory_info (some content) out).divisors ∧
      ∀ q : ℚ, (get_memory_info (some content) out).out.used_percent ≠ Dbl.fin q := by
  refine ⟨?_, ?_, ?_⟩
  · simp [get_memory_info, h]
  · simp [get_memory_info, h]
  · intro q
    rw [get_memory_info_out, h]
    simp only
    unfold memory_percent
    have h0 : Dbl.ofInt 0 = Dbl.fin 0 := by
      have := Dbl.ofInt_of_small 0 (by norm_num)
      simpa using this
    rw [h0]
    cases Dbl.mul (Dbl.ofInt (0 - (meminfo_scan content).mem_available.tdiv 1024))
        (Dbl.fin 100) with
    | fin a =>
      simp only [Dbl.div, if_true]
      split
      · simp
      · simp only [Dbl.inf]
        split <;> simp
    | posInf => simp [Dbl.div, Dbl.inf]
    | negInf => simp [Dbl.div, Dbl.inf]
    | nan => simp [Dbl.div]

theorem memory_percent_zero_total (u : Int) (hu : |u| * 100 < 2 ^ 53) :
    memory_percent u 0 =
      if u = 0 then Dbl.nan else Dbl.inf (decide (0 < (u : ℚ) * 100)) := by
  have hu' : |u| < 2 ^ 53 := by
    have : 0 ≤ |u| := abs_nonneg u
    omega
  have h1 : Dbl.ofInt u = Dbl.fin u := Dbl.ofInt_of_small u hu'
  have h2 : Dbl.round ((u : ℚ) * 100) = Dbl.fin ((u : ℚ) * 100) := by
    have := Dbl.round_intCast (u * 100) (by rw [abs_mul]; simpa using hu)
    simpa using this
  have h0 : Dbl.ofInt 0 = Dbl.fin 0 := by
    have := Dbl.ofInt_of_small 0 (by norm_num)
    simpa using this
  unfold memory_percent
  rw [h1, Dbl.mul_fin, h2, h0]
  simp [Dbl.div]

/-- C5 fails on the code. With no `MemTotal` line `total_mb` is 0 and line 66
still divides by it: the reading is `used_mb = -2` with `used_percent` minus
infinity, and on an empty file `used_percent` is NaN. When the file cannot be
opened the out-parameters keep whatever the caller had in them. -/
theorem memory_total_zero_divides :
    get_memory_info (some meminfo_no_total) stack_garbage =
        { out := { used_percent := Dbl.negInf, total_mb := 0, used_mb := -2 },
          divisors := [1024, 1024, 0] } ∧
      get_memory_info (some []) stack_garbage =
        { out := { used_percent := Dbl.nan, total_mb := 0, used_mb := 0 },
          divisors := [1024, 1024, 0] } ∧
      get_memory_info none stack_garbage = { out := stack_garbage, divisors := [] } := by
  refine ⟨?_, ?_, rfl⟩
  · have hs : meminfo_scan meminfo_no_total =
        { mem_total := 0, mem_free := 0, mem_available := 2048, buffers := 0, cached := 0 } := by
      decide
    have h2 : (2048 : Int).tdiv 1024 = 2 := by decide
    have h0 : (0 : Int).tdiv 1024 = 0 := by decide
    have hw : wrap_long (0 - 2) = -2 := by decide
    have hp : memory_percent (-2) 0 = Dbl.negInf := by
      rw [memory_percent_zero_total (-2) (by norm_num)]
      norm_num [Dbl.inf]
    simp only [get_memory_info, hs, h0, h2, hw, hp]
  · have hs : meminfo_scan [] = MemFields.zero := by decide
    have h0 : (0 : Int).tdiv 1024 = 0 := by decide
    have hw : wrap_long (0 - 0) = 0 := by decide
    have hp : memory_percent 0 0 = Dbl.nan := by
      rw [memory_percent_zero_total 0 (by norm_num)]
      simp
    simp only [get_memory_info, hs, MemFields.zero, h0, hw, hp]

/-- C8, as stated, fails. For `MemTotal: 368934881474194432 kB` and
`MemAvailable: 0 kB` the hypotheses hold (`0 ≤ A ≤ T`, `T / 1024 > 0`), the
product `used_mb * 100.0` rounds up, and `used_percent` is
`100.00000000000001`, above 100. -/
theorem memory_percent_exceeds_100 :
    file_gives "MemTotal:".toList 368934881474194432 meminfo_huge ∧
      file_gives "MemAvailable:".toList 0 meminfo_huge ∧
      (0 : Int) ≤ 0 ∧ (0 : Int) ≤ 368934881474194432 ∧
      0 < (368934881474194432 : Int).tdiv 1024 ∧
      (get_memory_info (some meminfo_huge) stack_garbage).out =
        { used_percent := Dbl.fin (100 + 1 / 70368744177664), total_mb := 360287970189643,
          used_mb := 360287970189643 } ∧
      (100 : ℚ) < 100 + 1 / 70368744177664 := by
  refine ⟨meminfo_huge_gives.1, meminfo_huge_gives.2, le_rfl, by decide, by decide, ?_,
    by norm_num⟩
  rw [get_memory_info_of_file_gives _ _ 368934881474194432 0 meminfo_huge_gives.1
    meminfo_huge_gives.2 (by decide) (by decide) (by decide) (by decide)]
  have h1 : (368934881474194432 : Int).tdiv 1024 = 360287970189643 := by decide
  have h2 : (0 : Int).tdiv 1024 = 0 := by decide
  rw [h1, h2]
  have h3 : (360287970189643 : Int) - 0 = 360287970189643 := by decide
  rw [h3, memory_percent_huge]

/-- C8, amended. For every memory-info content of plain lines whose `MemTotal`
line gives `T` kB and whose `MemAvailable` line gives `A` kB, where
`0 ≤ A ≤ T`, `T / 1024 > 0` and `total_mb * 100 < 2 ^ 53` (so that
`used_mb * 100.0` is exact), the reading satisfies `0 ≤ used_mb ≤ total_mb` and
`0 ≤ used_percent ≤ 100`. -/
theorem memory_reading_bounds (content : List Char) (out : MemOut) (T A : Int)
    (hT : file_gives "MemTotal:".toList T content)
    (hA : file_gives "MemAvailable:".toList A content)
    (hA0 : 0 ≤ A) (hAT : A ≤ T) (hpos : 0 < T.tdiv 1024)
    (hsmall : T.tdiv 1024 * 100 < 2 ^ 53) :
    0 ≤ (get_memory_info (some content) out).out.used_mb ∧
      (get_memory_info (some content) out).out.used_mb ≤
        (get_memory_info (some content) out).out.total_mb ∧
      ∃ q : ℚ, (get_memory_info (some content) out).out.used_percent = Dbl.fin q ∧
        0 ≤ q ∧ q ≤ 100 := by
  have hT0 : 0 ≤ T := le_trans hA0 hAT
  have hTd : T.tdiv 1024 = T / 1024 := Int.tdiv_eq_ediv hT0 (by norm_num)
  have hAd : A.tdiv 1024 = A / 1024 := Int.tdiv_eq_ediv hA0 (by norm_num)
  have hTmax : T ≤ LONG_MAX := by
    unfold LONG_MAX
    rw [hTd] at hsmall
    omega
  have hout := get_memory_info_of_file_gives content out T A hT hA
    (by unfold LONG_MIN; omega) hTmax (by unfold LONG_MIN; omega) (le_trans hAT hTmax)
  rw [hout]
  simp only
  have hu0 : 0 ≤ T.tdiv 1024 - A.tdiv 1024 := by rw [hTd, hAd]; omega
  have hu1 : T.tdiv 1024 - A.tdiv 1024 ≤ T.tdiv 1024 := by rw [hTd, hAd]; omega
  have husmall : |T.tdiv 1024 - A.tdiv 1024| * 100 < 2 ^ 53 := by
    rw [abs_of_nonneg hu0]
    omega
  have ht53 : T.tdiv 1024 < 2 ^ 53 := by omega
  obtain ⟨hp, -⟩ := memory_percent_of_small _ _ husmall hpos ht53
  have hposq : (0 : ℚ) < ((T.tdiv 1024 : Int) : ℚ) := by exact_mod_cast hpos
  have hu0q : (0 : ℚ) ≤ ((T.tdiv 1024 - A.tdiv 1024 : Int) : ℚ) := by exact_mod_cast hu0
  have hu1q : ((T.tdiv 1024 - A.tdiv 1024 : Int) : ℚ) ≤ ((T.tdiv 1024 : Int) : ℚ) := by
    exact_mod_cast hu1
  have hb := Dbl.round_between (l := 0) (u := 100)
    (q := ((T.tdiv 1024 - A.tdiv 1024 : Int) : ℚ) * 100 / ((T.tdiv 1024 : Int) : ℚ)) le_rfl
    (div_nonneg (mul_nonneg hu0q (by norm_num)) hposq.le)
    (by rw [div_le_iff₀ hposq]; nlinarith) round_nearest_zero round_nearest_hundred
    (by norm_num)
  exact ⟨hu0, hu1, _, hp, hb.2.1, hb.2.2⟩

/-- Witness of C8 (amended): the file of the example, where
`A = 8192000 ≤ T = 16384000`. -/
theorem memory_reading_bounds_witness :
    0 ≤ (get_memory_info (some meminfo_example) stack_garbage).out.used_mb ∧
      (get_memory_info (some meminfo_example) stack_garbage).out.used_mb ≤
        (get_memory_info (some meminfo_example) stack_garbage).out.total_mb ∧
      ∃ q : ℚ, (get_memory_info (some meminfo_example) stack_garbage).out.used_percent =
          Dbl.fin q ∧ 0 ≤ q ∧ q ≤ 100 :=
  memory_reading_bounds meminfo_example stack_garbage 16384000 8192000
    meminfo_example_gives.1 meminfo_example_gives.2 (by decide) (by decide) (by decide)
    (by decide)

/-! ## Properties of the temperature sampler -/

theorem store_int_of_range {v : Int} (h1 : INT_MIN ≤ v) (h2 : v ≤ INT_MAX) : store_int v = v := by
  unfold store_int wrap_int store_long LONG_MIN LONG_MAX
  unfold INT_MIN at h1
  unfold INT_MAX at h2
  omega

theorem store_int_range (v : Int) : INT_MIN ≤ store_int v ∧ store_int v ≤ INT_MAX := by
  unfold store_int wrap_int INT_MIN INT_MAX
  omega

theorem fscanf_d_range (content : List Char) (m : Int) (h : fscanf_d content = some m) :
    INT_MIN ≤ m ∧ m ≤ INT_MAX := by
  unfold fscanf_d at h
  split at h
  · exact absurd h (by simp)
  · simp only [Option.some.injEq] at h
    rw [← h]
    exact store_int_range _

/-- Line 102 for a file the `%d` conversion could read: the quotient of the
`int` read by 1000, rounded to a `double`. -/
theorem get_cpu_temperature_of_scan (content : List Char) (t m : Int)
    (h : fscanf_d content = some m) :
    get_cpu_temperature (some content) t = Dbl.round ((m : ℚ) / 1000) := by
  obtain ⟨h1, h2⟩ := fscanf_d_range content m h
  have hm : |m| < 2 ^ 53 := by
    unfold INT_MIN at h1
    unfold INT_MAX at h2
    rw [abs_lt]
    constructor <;> omega
  simp only [get_cpu_temperature, h, Dbl.ofInt_of_small m hm]
  rw [Dbl.div_fin _ _ (by norm_num)]

/-- Dividing an `int` by 1000 gives a finite `double`, within the fraction
`2 ^ -53` of the exact quotient. -/
theorem round_millidegrees (m : Int) (hmin : INT_MIN ≤ m) (hmax : m ≤ INT_MAX) :
    Dbl.round ((m : ℚ) / 1000) = Dbl.fin (round_nearest ((m : ℚ) / 1000)) ∧
      |round_nearest ((m : ℚ) / 1000) - (m : ℚ) / 1000| ≤
        |(m : ℚ) / 1000| * 2 ^ (-53 : Int) := by
  have habs : |m| ≤ 2147483648 := by
    unfold INT_MIN at hmin
    unfold INT_MAX at hmax
    rw [abs_le]
    constructor <;> omega
  have habsq : |(m : ℚ)| ≤ 2147483648 := by
    have : ((|m| : Int) : ℚ) ≤ ((2147483648 : Int) : ℚ) := by exact_mod_cast habs
    simpa using this
  have hx : |(m : ℚ) / 1000| ≤ 2147483648 := by
    rw [abs_div]
    have h1000 : |(1000 : ℚ)| = 1000 := by norm_num
    rw [h1000, div_le_iff₀ (by norm_num)]
    linarith [abs_nonneg (m : ℚ)]
  constructor
  · apply Dbl.round_of_lt
    rw [abs_round_nearest]
    have hm := round_nearest_mono (abs_nonneg _) hx
    have hr : round_nearest (2147483648 : ℚ) = 2147483648 := by
      have := round_nearest_intCast 2147483648 (by norm_num)
      simpa using this
    rw [hr] at hm
    exact lt_of_le_of_lt hm (by norm_num)
  · rcases eq_or_ne m 0 with h0 | h0
    · subst h0
      simp [round_nearest_zero]
    · apply round_nearest_error
      have hm1 : (1 : ℚ) ≤ |(m : ℚ)| := by
        have : 1 ≤ |m| := Int.one_le_abs h0
        have : ((1 : Int) : ℚ) ≤ ((|m| : Int) : ℚ) := by exact_mod_cast this
        simpa using this
      rw [abs_div]
      have h1000 : |(1000 : ℚ)| = 1000 := by norm_num
      rw [h1000, le_div_iff₀ (by norm_num)]
      have hs : (2 : ℚ) ^ (-1022 : Int) * 1000 ≤ 1 := by
        have h1 : (2 : ℚ) ^ (-1022 : Int) ≤ 2 ^ (-10 : Int) :=
          zpow_le_zpow_right₀ (by norm_num) (by norm_num)
        have h3 := mul_le_mul_of_nonneg_right h1 (by norm_num : (0 : ℚ) ≤ 1000)
        exact le_trans h3 (by norm_num)
      calc (2 : ℚ) ^ (-1022 : Int) * 1000 ≤ 1 := hs
        _ ≤ |(m : ℚ)| := hm1

/-- The `%d` conversion of a file that holds the integer `m`, an `int`, reads `m`. -/
theorem fscanf_d_of_file_holds (content : List Char) (m : Int)
    (h : file_holds_integer m content) (hmin : INT_MIN ≤ m) (hmax : m ≤ INT_MAX) :
    fscanf_d content = some m := by
  obtain ⟨ws, rest, hc, hws, hrest⟩ := h
  have hs : scan_decimal content = some (m, rest) := by
    rw [hc, scan_decimal_skip_ws ws _ hws]
    exact scan_decimal_int_text m rest hrest
  simp [fscanf_d, hs, store_int_of_range hmin hmax]

theorem int_text_45230 : int_text 45230 = "45230".toList := by
  norm_num [int_text, decimal_text, digit_char]

theorem int_text_4294967796 : int_text 4294967796 = "4294967796".toList := by
  norm_num [int_text, decimal_text, digit_char]

theorem thermal_example_holds : file_holds_integer 45230 thermal_example := by
  refine ⟨[], [], ?_, by simp, by simp⟩
  rw [int_text_45230]
  rfl

theorem thermal_beyond_int_holds : file_holds_integer 4294967796 thermal_beyond_int := by
  refine ⟨[], [Char.ofNat 10], ?_, by simp, ?_⟩
  · rw [int_text_4294967796]
    rfl
  · intro c hc
    simp only [List.head?_cons, Option.some.injEq] at hc
    subst hc
    decide

/-- The content `45230` yields the `double` next to 45.23. -/
theorem get_cpu_temperature_example (t : Int) :
    get_cpu_temperature (some thermal_example) t =
      Dbl.fin (6365556598311485 / 140737488355328) := by
  have hs : fscanf_d thermal_example = some 45230 := by decide
  rw [get_cpu_temperature_of_scan thermal_example t 45230 hs]
  have e : (((45230 : Int) : ℚ) / 1000) = 4523 / 100 := by norm_num
  rw [e]
  exact Dbl.round_of_binade (e := 5) (n := 6365556598311485) _ (by norm_num) (by norm_num)
    (by norm_num) (by norm_num [abs_lt]) (by norm_num) (by norm_num [abs_lt])

theorem get_cpu_temperature_zero (t : Int) :
    get_cpu_temperature (some thermal_zero) t = Dbl.fin 0 := by
  have hs : fscanf_d thermal_zero = some 0 := by decide
  rw [get_cpu_temperature_of_scan thermal_zero t 0 hs]
  have := Dbl.round_intCast 0 (by norm_num)
  simpa using this

/-- C9, as stated, fails in two ways. For the content `45230` the function
returns the `double` `6365556598311485 / 2 ^ 47`, not the rational `4523 / 100`.
For the content `4294967796`, an integer no `int` holds, `%d` stores 500 and
the function returns 0.5. -/
theorem temperature_not_exact_and_int_wraps :
    (file_holds_integer 45230 thermal_example ∧
      get_cpu_temperature (some thermal_example) 0 =
        Dbl.fin (6365556598311485 / 140737488355328) ∧
      get_cpu_temperature (some thermal_example) 0 ≠ Dbl.fin (((45230 : Int) : ℚ) / 1000)) ∧
    (file_holds_integer 4294967796 thermal_beyond_int ∧
      get_cpu_temperature (some thermal_beyond_int) 0 = Dbl.fin (1 / 2) ∧
      get_cpu_temperature (some thermal_beyond_int) 0 ≠
        Dbl.fin (((4294967796 : Int) : ℚ) / 1000)) := by
  have h2 : get_cpu_temperature (some thermal_beyond_int) 0 = Dbl.fin (1 / 2) := by
    have hs : fscanf_d thermal_beyond_int = some 500 := by decide
    rw [get_cpu_temperature_of_scan thermal_beyond_int 0 500 hs]
    have e : (((500 : Int) : ℚ) / 1000) = ((1 : Int) : ℚ) * 2 ^ (-1 : Int) := by norm_num
    rw [e]
    have hr := round_nearest_of_representable 1 (-1) (by norm_num) (by norm_num)
    rw [Dbl.round_of_lt (by rw [hr]; norm_num [abs_lt]), hr]
    norm_num
  refine ⟨⟨thermal_example_holds, get_cpu_temperature_example 0, ?_⟩,
    thermal_beyond_int_holds, h2, ?_⟩
  · rw [get_cpu_temperature_example 0]
    norm_num
  · rw [h2]
    norm_num

/-- C9, amended. For every readable thermal-zone file that holds an integer
`m` within the range of `int`, `get_cpu_temperature` returns the `double`
nearest to `m / 1000`, which is within the fraction `2 ^ -53` of `m / 1000`;
for the content `45230` that is `6365556598311485 / 2 ^ 47`, which prints as
45.23. -/
theorem temperature_is_millidegrees_over_1000 (content : List Char) (t m : Int)
    (h : file_holds_integer m content) (hmin : INT_MIN ≤ m) (hmax : m ≤ INT_MAX) :
    (∃ q : ℚ, get_cpu_temperature (some content) t = Dbl.fin q ∧
        q = round_nearest ((m : ℚ) / 1000) ∧
        |q - (m : ℚ) / 1000| ≤ |(m : ℚ) / 1000| * 2 ^ (-53 : Int)) ∧
      get_cpu_temperature (some thermal_example) t =
        Dbl.fin (6365556598311485 / 140737488355328) := by
  obtain ⟨h1, h2⟩ := round_millidegrees m hmin hmax
  refine ⟨⟨_, ?_, rfl, h2⟩, get_cpu_temperature_example t⟩
  rw [get_cpu_temperature_of_scan content t m (fscanf_d_of_file_holds content m h hmin hmax), h1]

/-- Witness of C9 (amended): the content `45230`. -/
theorem temperature_is_millidegrees_over_1000_witness :
    (∃ q : ℚ, get_cpu_temperature (some thermal_example) 0 = Dbl.fin q ∧
        q = round_nearest (((45230 : Int) : ℚ) / 1000) ∧
        |q - ((45230 : Int) : ℚ) / 1000| ≤ |((45230 : Int) : ℚ) / 1000| * 2 ^ (-53 : Int)) ∧
      get_cpu_temperature (some thermal_example) 0 =
        Dbl.fin (6365556598311485 / 140737488355328) :=
  temperature_is_millidegrees_over_1000 thermal_example 0 45230 thermal_example_holds
    (by decide) (by decide)

/-- C7, as stated, fails: with the sensor file missing the function returns the
plain value 0, the very value it returns for a file that holds 0, and
`update_system_info` shows the same temperature in both cases. -/
theorem temperature_missing_file_looks_like_zero :
    get_cpu_temperature none 0 = Dbl.fin 0 ∧
      get_cpu_temperature (some thermal_zero) 0 = Dbl.fin 0 ∧
      (update_system_info CpuState.initial sources_no_sensor).snapshot.temp =
        (update_system_info CpuState.initial sources_zero_degrees).snapshot.temp := by
  refine ⟨rfl, get_cpu_temperature_zero 0, ?_⟩
  simp only [update_system_info, sources_no_sensor, sources_zero_degrees,
    get_cpu_temperature_zero]
  rfl

/-- C7, amended. When the thermal sensor path cannot be opened
`get_cpu_temperature` returns the plain value 0.0, whatever the local held; the
result carries no availability mark, and every consumer of the returned value
gets what it gets for a readable file that holds 0. -/
theorem temperature_unavailable_is_plain_zero (t : Int) :
    get_cpu_temperature none t = Dbl.fin 0 ∧
      ∀ (α : Type) (consumer : Dbl → α),
        consumer (get_cpu_temperature none t) =
          consumer (get_cpu_temperature (some thermal_zero) t) := by
  refine ⟨rfl, fun α consumer => ?_⟩
  rw [get_cpu_temperature_zero t]
  rfl

/-! ## Properties of the GPU sampler -/

/-- The fallback path: the placeholder and usage 0, readable from any buffer. -/
theorem gpu_fallback_out (buf : List Char) :
    read_c_str (strcpy buf GPU_FALLBACK) = some GPU_FALLBACK := by
  have hmem : NUL ∈ strcpy buf GPU_FALLBACK := by
    simp [strcpy]
  have hstr : c_str (strcpy buf GPU_FALLBACK) = GPU_FALLBACK := by
    simp only [strcpy, c_str, List.append_assoc]
    rw [List.takeWhile_append_of_pos]
    · simp [List.takeWhile]
    · decide
  simp [read_c_str, hmem, hstr]

/-- A name stored by the `%127[^,]` conversion is not empty, has at most 127
characters and holds neither a NUL nor a comma. -/
theorem scan_not_comma_name {s name rest : List Char}
    (h : scan_not_comma 127 (c_str s) = some (name, rest)) :
    name ≠ [] ∧ name.length ≤ 127 ∧ (∀ c ∈ name, c ≠ NUL) ∧ (∀ c ∈ name, c.toNat ≠ 44) := by
  unfold scan_not_comma at h
  simp only at h
  split at h
  · exact absurd h (by simp)
  · rename_i hne
    simp only [Option.some.injEq, Prod.mk.injEq] at h
    obtain ⟨h1, -⟩ := h
    subst h1
    refine ⟨by simpa using hne, by simp [List.length_take], ?_, ?_⟩
    · intro c hc
      have hc1 := List.mem_of_mem_take hc
      have hc2 := (List.takeWhile_sublist _).subset hc1
      have hc3 := List.mem_takeWhile_imp hc2
      simpa [c_str] using hc3
    · intro c hc
      have hc1 := List.mem_of_mem_take hc
      have hc3 := List.mem_takeWhile_imp hc1
      simpa using hc3

theorem sscanf_gpu_both_name {line name : List Char} {usage : Int}
    (h : sscanf_gpu line = GpuScan.both name usage) :
    name ≠ [] ∧ name.length ≤ 127 ∧ (∀ c ∈ name, c ≠ NUL) ∧ (∀ c ∈ name, c.toNat ≠ 44) := by
  unfold sscanf_gpu at h
  split at h
  · exact absurd h (by simp)
  · rename_i nm rest hs
    split at h
    · exact absurd h (by simp)
    · split at h
      · exact absurd h (by simp)
      · simp only [GpuScan.both.injEq] at h
        obtain ⟨h1, -⟩ := h
        subst h1
        exact scan_not_comma_name hs

theorem sscanf_gpu_both_usage {line name : List Char} {usage : Int}
    (h : sscanf_gpu line = GpuScan.both name usage) : |usage| < 2 ^ 53 := by
  unfold sscanf_gpu at h
  split at h
  · exact absurd h (by simp)
  · split at h
    · exact absurd h (by simp)
    · split at h
      · exact absurd h (by simp)
      · simp only [GpuScan.both.injEq] at h
        obtain ⟨-, h2⟩ := h
        rw [← h2]
        have hr := store_int_range ‹Int›
        unfold INT_MIN INT_MAX at hr
        rw [abs_lt]
        constructor <;> omega

/-- `strncpy(gpu_name, name, 127)` leaves a terminated copy of a name of at
most 126 characters. -/
theorem strncpy_short_name (buf name : List Char) (hlen : name.length ≤ 126)
    (hnul : ∀ c ∈ name, c ≠ NUL) :
    read_c_str (strncpy buf name 127) = some name := by
  have htake : name.take 127 = name := List.take_of_length_le (by omega)
  obtain ⟨k, hk⟩ : ∃ k, 127 - name.length = k + 1 := ⟨126 - name.length, by omega⟩
  have hmem : NUL ∈ strncpy buf name 127 := by
    simp [strncpy, hk, List.replicate_succ]
  have hstr : c_str (strncpy buf name 127) = name := by
    simp only [strncpy, c_str, htake, hk, List.replicate_succ, List.append_assoc,
      List.cons_append]
    rw [List.takeWhile_append_of_pos]
    · simp [List.takeWhile]
    · intro c hc
      simpa using hnul c hc
  simp [read_c_str, hmem, hstr]

/-- `strncpy(gpu_name, name, 127)` with a name of 127 characters writes no
terminator: character 127 of the buffer stays what the caller had there. -/
theorem strncpy_full_name (buf name : List Char) (hlen : name.length = 127) :
    strncpy buf name 127 = name ++ buf.drop 127 := by
  have htake : name.take 127 = name := List.take_of_length_le (by omega)
  simp [strncpy, htake, hlen]

/-- The primary path of `get_gpu_info`, for a name of at most 126 characters:
the caller reads the name and the usage converted to `double`. -/
theorem get_gpu_info_primary (output buf line name : List Char) (usage : Int)
    (hline : (fgets_lines output).head? = some line)
    (hscan : sscanf_gpu line = GpuScan.both name usage) (hlen : name.length ≤ 126) :
    read_c_str (get_gpu_info (some output) buf).gpu_name = some name ∧
      (get_gpu_info (some output) buf).gpu_usage = Dbl.fin (usage : ℚ) := by
  have hn := sscanf_gpu_both_name hscan
  simp only [get_gpu_info, hline, hscan]
  exact ⟨strncpy_short_name buf name hlen hn.2.2.1,
    Dbl.ofInt_of_small usage (sscanf_gpu_both_usage hscan)⟩

/-- The fallback path of `get_gpu_info`: whenever the command could not be
started, printed nothing, or its first line does not convert into both fields,
the caller reads the placeholder and usage 0. -/
theorem get_gpu_info_fallback (fp : Option (List Char)) (buf : List Char)
    (h : ∀ output line name usage, fp = some output →
      (fgets_lines output).head? = some line → sscanf_gpu line ≠ GpuScan.both name usage) :
    read_c_str (get_gpu_info fp buf).gpu_name = some GPU_FALLBACK ∧
      (get_gpu_info fp buf).gpu_usage = Dbl.fin 0 := by
  have hfb : ∀ g : GpuOut, g = { gpu_name := strcpy buf GPU_FALLBACK, gpu_usage := Dbl.fin 0 } →
      read_c_str g.gpu_name = some GPU_FALLBACK ∧ g.gpu_usage = Dbl.fin 0 := by
    intro g hg
    subst hg
    exact ⟨gpu_fallback_out buf, rfl⟩
  apply hfb
  cases fp with
  | none => rfl
  | some output =>
    simp only [get_gpu_info]
    cases hl : (fgets_lines output).head? with
    | none => rfl
    | some line =>
      simp only
      cases hs : sscanf_gpu line with
      | nothing => rfl
      | name_only n => rfl
      | both name usage => exact absurd hs (h output line name usage rfl hl)

/-- The example of the specification: the line `NVIDIA RTX 3080, 42` yields
the name `NVIDIA RTX 3080` and usage 42. -/
theorem get_gpu_info_example (buf : List Char) :
    read_c_str (get_gpu_info (some gpu_example) buf).gpu_name =
        some "NVIDIA RTX 3080".toList ∧
      (get_gpu_info (some gpu_example) buf).gpu_usage = Dbl.fin 42 := by
  have h := get_gpu_info_primary gpu_example buf gpu_example "NVIDIA RTX 3080".toList 42
    (by decide) (by decide) (by decide)
  refine ⟨h.1, ?_⟩
  rw [h.2]
  norm_num

set_option maxRecDepth 20000 in
/-- C6 fails on the code for a name of exactly 127 characters. The line holds
127 times `A`, then `, 42`: both fields convert and the usage is 42, but
`strncpy(gpu_name, name, 127)` copies the 127 characters without a terminator.
The buffer keeps the caller's character at index 127 and holds no NUL, so the
caller does not read the name back. -/
theorem gpu_name_of_127_is_unterminated :
    sscanf_gpu gpu_line_127 = GpuScan.both (List.replicate 127 (Char.ofNat 65)) 42 ∧
      (get_gpu_info (some gpu_line_127) gpu_stack_buffer).gpu_name =
        List.replicate 127 (Char.ofNat 65) ++ [Char.ofNat 120] ∧
      read_c_str (get_gpu_info (some gpu_line_127) gpu_stack_buffer).gpu_name = none ∧
      (get_gpu_info (some gpu_line_127) gpu_stack_buffer).gpu_usage = Dbl.fin 42 := by
  have hline : (fgets_lines gpu_line_127).head? = some gpu_line_127 := by decide
  have hscan : sscanf_gpu gpu_line_127 =
      GpuScan.both (List.replicate 127 (Char.ofNat 65)) 42 := by decide
  have hname : (get_gpu_info (some gpu_line_127) gpu_stack_buffer).gpu_name =
      List.replicate 127 (Char.ofNat 65) ++ [Char.ofNat 120] := by
    simp only [get_gpu_info, hline, hscan]
    rw [strncpy_full_name _ _ (by simp)]
    decide
  refine ⟨hscan, hname, ?_, ?_⟩
  · rw [hname]
    decide
  · simp only [get_gpu_info, hline, hscan]
    have := Dbl.ofInt_of_small 42 (by norm_num)
    simpa using this

/-! ## The GPU sampler on a line `<name>, <usage>` -/

theorem int_text_length {m : Int} (h : m.natAbs < 10 ^ 19) : (int_text m).length ≤ 20 := by
  have := decimal_text_length h
  unfold int_text
  split <;> simp <;> omega

theorem int_text_no_newline (m : Int) : ∀ c ∈ int_text m, c.toNat ≠ 10 := by
  intro c hc
  unfold int_text at hc
  have hd : ∀ c ∈ decimal_text m.natAbs, c.toNat ≠ 10 := by
    intro c hc
    have := decimal_text_isdigit _ c hc
    simp only [isdigit, Bool.and_eq_true, decide_eq_true_eq] at this
    omega
  split at hc
  · rcases List.mem_cons.mp hc with rfl | h
    · decide
    · exact hd c h
  · exact hd c hc

/-- Both conversions succeed on a line `<name>, <usage>` whose name is not
empty, has at most 127 characters and holds neither a comma nor a NUL. -/
theorem sscanf_gpu_text (name : List Char) (usage : Int) (hne : name ≠ [])
    (hlen : name.length ≤ 127) (hcomma : ∀ c ∈ name, c.toNat ≠ 44)
    (hnul : ∀ c ∈ name, (c != NUL) = true) :
    sscanf_gpu (gpu_text name usage) = GpuScan.both name (store_int usage) := by
  have hsep : ", ".toList = [Char.ofNat 44, Char.ofNat 32] := by decide
  have hnl : "\n".toList = [Char.ofNat 10] := by decide
  have hcstr : c_str (gpu_text name usage) =
      name ++ (Char.ofNat 44 :: Char.ofNat 32 :: (int_text usage ++ [Char.ofNat 10])) := by
    unfold gpu_text
    rw [hsep, hnl, List.append_assoc, List.append_assoc, c_str_append _ _ hnul]
    congr 1
    have h2 : ∀ c ∈ [Char.ofNat 44, Char.ofNat 32], (c != NUL) = true := by decide
    rw [c_str_append _ _ h2, c_str_append _ _ (int_text_ne_NUL usage)]
    have h3 : c_str [Char.ofNat 10] = [Char.ofNat 10] := by decide
    rw [h3]
    rfl
  have htw : (name ++ (Char.ofNat 44 :: Char.ofNat 32 :: (int_text usage ++ [Char.ofNat 10]))).takeWhile
      (fun c => c.toNat != 44) = name := by
    rw [List.takeWhile_append_of_pos (fun c hc => by simpa using hcomma c hc)]
    have h44 : ((Char.ofNat 44).toNat != 44) = false := by decide
    simp [List.takeWhile_cons, h44]
  have hscan : scan_not_comma 127
      (name ++ (Char.ofNat 44 :: Char.ofNat 32 :: (int_text usage ++ [Char.ofNat 10]))) =
      some (name, Char.ofNat 44 :: Char.ofNat 32 :: (int_text usage ++ [Char.ofNat 10])) := by
    unfold scan_not_comma
    simp only [htw, List.take_of_length_le hlen]
    have hemp : name.isEmpty = false := by
      cases name with
      | nil => exact absurd rfl hne
      | cons a as => rfl
    simp [hemp]
  have hrest : ∀ c, [Char.ofNat 10].head? = some c → isdigit c = false := by
    intro c hc
    simp only [List.head?_cons, Option.some.injEq] at hc
    subst hc
    decide
  have hnum : scan_decimal (skip_ws (Char.ofNat 32 :: (int_text usage ++ [Char.ofNat 10]))) =
      some (usage, [Char.ofNat 10]) := by
    have h32 : isspace (Char.ofNat 32) = true := by decide
    have hskip : skip_ws (Char.ofNat 32 :: (int_text usage ++ [Char.ofNat 10])) =
        skip_ws (int_text usage ++ [Char.ofNat 10]) := by
      simp [skip_ws, h32]
    rw [hskip]
    have h2 : scan_decimal (skip_ws (int_text usage ++ [Char.ofNat 10])) =
        scan_decimal (int_text usage ++ [Char.ofNat 10]) := by
      unfold scan_decimal
      have hidem : skip_ws (skip_ws (int_text usage ++ [Char.ofNat 10])) =
          skip_ws (int_text usage ++ [Char.ofNat 10]) := by
        unfold skip_ws
        rw [List.dropWhile_idempotent]
      rw [hidem]
    rw [h2]
    exact scan_decimal_int_text usage _ hrest
  unfold sscanf_gpu
  rw [hcstr, hscan]
  simp only [match_literal, if_true]
  rw [hnum]

/-- The line `<name>, <usage>` with a name of at most 126 characters (no
comma, NUL or newline in it) and a usage in the range of `int`: the caller
reads the name and the usage as a `double`. -/
theorem get_gpu_info_text (name buf : List Char) (usage : Int) (hne : name ≠ [])
    (hlen : name.length ≤ 126) (hcomma : ∀ c ∈ name, c.toNat ≠ 44)
    (hnul : ∀ c ∈ name, (c != NUL) = true) (hnl : ∀ c ∈ name, c.toNat ≠ 10)
    (hmin : INT_MIN ≤ usage) (hmax : usage ≤ INT_MAX) :
    read_c_str (get_gpu_info (some (gpu_text name usage)) buf).gpu_name = some name ∧
      (get_gpu_info (some (gpu_text name usage)) buf).gpu_usage = Dbl.fin (usage : ℚ) := by
  have habs : usage.natAbs < 10 ^ 19 := by
    unfold INT_MIN at hmin
    unfold INT_MAX at hmax
    omega
  have hbody : ∀ c ∈ name ++ ", ".toList ++ int_text usage, c.toNat ≠ 10 := by
    intro c hc
    simp only [List.mem_append] at hc
    rcases hc with (hc | hc) | hc
    · exact hnl c hc
    · revert c; decide
    · exact int_text_no_newline usage c hc
  have hl := int_text_length habs
  have hline : (fgets_lines (gpu_text name usage)).head? = some (gpu_text name usage) := by
    have e : gpu_text name usage = (name ++ ", ".toList ++ int_text usage) ++ Char.ofNat 10 :: [] := by
      unfold gpu_text
      rfl
    unfold fgets_lines
    rw [e, fgets_from_line _ _ [] hbody (by simp; omega)]
    simp
  have hscan := sscanf_gpu_text name usage hne (by omega) hcomma hnul
  rw [store_int_of_range hmin hmax] at hscan
  exact get_gpu_info_primary _ buf _ name usage hline hscan hlen

/-! ## Properties of the poller -/

/-- The callback always asks to be called again (line 140). -/
theorem update_system_info_keep (cpu : CpuState) (src : Sources) :
    (update_system_info cpu src).keep = true := by
  rfl

/-- The state of a poller whose timeout is armed and whose `destroy` handler
is connected. -/
theorem main_start_running (src : Sources) :
    (step Poller.initial (Event.start src)).phase = Phase.in_main_loop ∧
      (step Poller.initial (Event.start src)).timer_id ∈
        (step Poller.initial (Event.start src)).ctx.sources ∧
      (step Poller.initial (Event.start src)).destroy_connected = true ∧
      0 < (step Poller.initial (Event.start src)).timer_id := by
  simp [step, Poller.initial, main_start, g_timeout_add, MainContext.initial]

/-- An event other than `cancel` keeps a running poller running. -/
theorem step_keeps_running (p : Poller) (e : Event) (he : e.isCancel = false)
    (h : p.phase = Phase.in_main_loop ∧ p.timer_id ∈ p.ctx.sources ∧
      p.destroy_connected = true ∧ 0 < p.timer_id) :
    (step p e).phase = Phase.in_main_loop ∧ (step p e).timer_id ∈ (step p e).ctx.sources ∧
      (step p e).destroy_connected = true ∧ 0 < (step p e).timer_id := by
  obtain ⟨h1, h2, h3, h4⟩ := h
  cases e with
  | start src => simp [step, h1, h2, h3, h4]
  | tick src =>
    simp [step, Poller.armed, h1, h2, h3, h4, dispatch_timeout, update_system_info_keep]
  | cancel => simp [Event.isCancel] at he

theorem run_keeps_running (evs : List Event) (p : Poller)
    (hevs : ∀ e ∈ evs, e.isCancel = false)
    (h : p.phase = Phase.in_main_loop ∧ p.timer_id ∈ p.ctx.sources ∧
      p.destroy_connected = true ∧ 0 < p.timer_id) :
    (run p evs).phase = Phase.in_main_loop ∧ (run p evs).timer_id ∈ (run p evs).ctx.sources ∧
      (run p evs).destroy_connected = true ∧ 0 < (run p evs).timer_id := by
  induction evs generalizing p with
  | nil => exact h
  | cons e rest ih =>
    have he : e.isCancel = false := hevs e (List.mem_cons_self _ _)
    have hrest : ∀ e ∈ rest, e.isCancel = false :=
      fun e' he' => hevs e' (List.mem_cons_of_mem _ he')
    exact ih (step p e) hrest (step_keeps_running p e he h)

/-- A tick on a running poller delivers exactly one snapshot. -/
theorem tick_delivers_one (p : Poller) (src : Sources)
    (h : p.phase = Phase.in_main_loop ∧ p.timer_id ∈ p.ctx.sources ∧
      p.destroy_connected = true ∧ 0 < p.timer_id) :
    (step p (Event.tick src)).delivered =
      (update_system_info p.cpu src).snapshot :: p.delivered := by
  obtain ⟨h1, h2, -, -⟩ := h
  simp [step, Poller.armed, h1, h2, dispatch_timeout]

/-- Destroying the window of a running poller removes the timeout source and
leaves the main loop. -/
theorem cancel_finishes (p : Poller)
    (h : p.phase = Phase.in_main_loop ∧ p.timer_id ∈ p.ctx.sources ∧
      p.destroy_connected = true ∧ 0 < p.timer_id) :
    (step p Event.cancel).phase = Phase.finished ∧
      (step p Event.cancel).timer_id ∉ (step p Event.cancel).ctx.sources ∧
      (step p Event.cancel).delivered = p.delivered := by
  obtain ⟨h1, -, h3, h4⟩ := h
  simp [step, h1, h3, h4, on_window_destroy, g_source_remove]

/-- Once the main loop is left no event has an effect. -/
theorem step_finished (p : Poller) (e : Event) (h : p.phase = Phase.finished) :
    step p e = p := by
  cases e <;> simp [step, Poller.armed, h]

theorem run_finished (evs : List Event) (p : Poller) (h : p.phase = Phase.finished) :
    run p evs = p := by
  induction evs with
  | nil => rfl
  | cons e rest ih =>
    show run (step p e) rest = p
    rw [step_finished p e h]
    exact ih

theorem run_append (p : Poller) (xs ys : List Event) :
    run p (xs ++ ys) = run (run p xs) ys := by
  simp [run, List.foldl_append]

/-- C10. The poller as a state machine over the events start, tick and cancel.
Start delivers exactly one snapshot at once. After start and any events other
than cancel the timeout is armed, a tick delivers exactly one snapshot, whose
callback returns `TRUE`, and leaves the timeout armed. After cancel the timeout
is disarmed and no sequence of further events delivers a snapshot. -/
theorem poller_delivers_until_cancelled (src : Sources) (pre : List Event)
    (hpre : ∀ e ∈ pre, e.isCancel = false) :
    (step Poller.initial (Event.start src)).delivered =
        [(update_system_info CpuState.initial src).snapshot] ∧
      (run Poller.initial (Event.start src :: pre)).armed = true ∧
      (∀ s : Sources,
        (step (run Poller.initial (Event.start src :: pre)) (Event.tick s)).delivered =
            (update_system_info (run Poller.initial (Event.start src :: pre)).cpu s).snapshot ::
              (run Poller.initial (Event.start src :: pre)).delivered ∧
          (update_system_info (run Poller.initial (Event.start src :: pre)).cpu s).keep = true ∧
          (step (run Poller.initial (Event.start src :: pre)) (Event.tick s)).armed = true) ∧
      (run Poller.initial (Event.start src :: pre ++ [Event.cancel])).armed = false ∧
      (∀ post : List Event,
        (run Poller.initial (Event.start src :: pre ++ Event.cancel :: post)).delivered =
          (run Poller.initial (Event.start src :: pre)).delivered) := by
  have hrun : ∀ evs, run Poller.initial (Event.start src :: evs) =
      run (step Poller.initial (Event.start src)) evs := fun _ => rfl
  have hR := run_keeps_running pre _ hpre (main_start_running src)
  rw [← hrun] at hR
  have hC := cancel_finishes _ hR
  have hcancel : run Poller.initial (Event.start src :: pre ++ [Event.cancel]) =
      step (run Poller.initial (Event.start src :: pre)) Event.cancel := by
    rw [run_append]
    rfl
  refine ⟨?_, ?_, ?_, ?_, ?_⟩
  · simp [step, Poller.initial, main_start]
  · simp [Poller.armed, hR.1, hR.2.1]
  · intro s
    refine ⟨tick_delivers_one _ s hR, rfl, ?_⟩
    have hT := step_keeps_running _ (Event.tick s) rfl hR
    simp [Poller.armed, hT.1, hT.2.1]
  · rw [hcancel]
    simp [Poller.armed, hC.1]
  · intro post
    have hsplit : Event.start src :: pre ++ Event.cancel :: post =
        (Event.start src :: pre ++ [Event.cancel]) ++ post := by simp
    rw [hsplit, run_append, hcancel, run_finished post _ hC.1, hC.2.2]

/-- Witness of C10: start, two ticks, then cancel followed by a late tick. -/
theorem poller_delivers_until_cancelled_witness :
    (run Poller.initial
        (Event.start sources_no_sensor ::
          [Event.tick sources_no_sensor, Event.tick sources_zero_degrees] ++
            Event.cancel :: [Event.tick sources_no_sensor])).delivered =
      (run Poller.initial
        (Event.start sources_no_sensor ::
          [Event.tick sources_no_sensor, Event.tick sources_zero_degrees])).delivered :=
  (poller_delivers_until_cancelled sources_no_sensor
    [Event.tick sources_no_sensor, Event.tick sources_zero_degrees]
    (by
      intro e he
      simp only [List.mem_cons, List.mem_singleton, List.not_mem_nil, or_false] at he
      rcases he with rfl | rfl <;> rfl)).2.2.2.2 [Event.tick sources_no_sensor]

end SystemMonitor
